import Mathlib

/-!
Verification of the fastmail-mcp calendar/contact synchronization layer.

This file gives a shallow embedding, over `List Char` strings and `Int`
arithmetic, of the pure core of `packages/fastmail-mcp/src`:

* the timezone resolver (`src/dav/timezone.ts`): naive-to-UTC conversion and
  the VTIMEZONE property builder / TZID extractor;
* the iCalendar codec (`src/dav/ical.ts`, shipped inside `src/dav/client.ts`):
  `escText`, `foldLine`, `buildIcsEvent`, `parseIcsSummary`;
* the vCard codec (`src/dav/vcard.ts`): `buildVCard`, `parseVCardSummary`;
* the rights-aware CRUD guards (`src/index.ts`): `extractDavPrivileges`,
  `computeDavRights`, `getCalendarRights`, the `create_calendar_event` write
  gate, `assertMailboxCanBeDeleted`, and the `delete_calendar` handler;
* the JMAP send pipeline preconditions (`src/jmap/client.ts`): identity
  selection and the body-presence validation of `sendEmail`.

Effectful inputs of the TypeScript code (the random UUID, the current instant,
the Intl timezone database, the remote DAV/JMAP responses) are passed to the
Lean definitions as explicit parameters; JavaScript strings are `List Char`,
JavaScript numbers holding whole-second instants are `Int` (epoch seconds),
and thrown exceptions are `Option`/`Except` results.
-/

/-! ## JavaScript string primitives -/

/-- The JavaScript whitespace set used by `String.prototype.trim` (ECMAScript
WhiteSpace and LineTerminator code points plus the Unicode Zs category),
given by code point. -/
def isJsWs (c : Char) : Bool :=
  let n := c.toNat
  n = 32 || n = 9 || n = 10 || n = 13 || n = 11 || n = 12 ||
  n = 0xa0 || n = 0xfeff || n = 0x1680 || (0x2000 <= n && n <= 0x200a) ||
  n = 0x2028 || n = 0x2029 || n = 0x202f || n = 0x205f || n = 0x3000

/-- JavaScript `String.prototype.trim`: drop leading and trailing whitespace. -/
def jsTrim (s : List Char) : List Char :=
  ((s.dropWhile isJsWs).reverse.dropWhile isJsWs).reverse

/-- A JavaScript regular-expression line terminator (what `.` refuses to
match): LF, CR, LINE SEPARATOR, PARAGRAPH SEPARATOR. -/
def isLineTerm (c : Char) : Bool :=
  let n := c.toNat
  n = 10 || n = 13 || n = 0x2028 || n = 0x2029

/-- The capture of a `(.*)` group: the longest terminator-free prefix. -/
def takeLineVal (s : List Char) : List Char := s.takeWhile (fun c => !isLineTerm c)

/-- JavaScript `s.replace(/x/g, repl)` for a single-character pattern `x`:
each occurrence of the character is replaced independently. -/
def replAll (target : Char) (repl : List Char) (s : List Char) : List Char :=
  s.flatMap (fun c => if c = target then repl else [c])

/-- The CRLF separator used by both codecs when joining lines. -/
def crlf : List Char := ['\r', '\n']

/-! ## Civil calendar arithmetic (the proleptic Gregorian calendar used by
JavaScript `Date.UTC` / `getUTC*` / `toISOString`) -/

/-- Days since 1970-01-01 of a civil date (Howard Hinnant's algorithm,
with floor division so that it is correct for all years). -/
def daysFromCivil (y m d : Int) : Int :=
  let y2 := if m ≤ 2 then y - 1 else y
  let era := Int.fdiv y2 400
  let yoe := y2 - era * 400
  let mp := if 2 < m then m - 3 else m + 9
  let doy := Int.fdiv (153 * mp + 2) 5 + d - 1
  let doe := yoe * 365 + Int.fdiv yoe 4 - Int.fdiv yoe 100 + doy
  era * 146097 + doe - 719468

/-- Civil date (year, month, day) of a count of days since 1970-01-01
(the inverse of `daysFromCivil`). -/
def civilFromDays (z0 : Int) : Int × Int × Int :=
  let z := z0 + 719468
  let era := Int.fdiv z 146097
  let doe := z - era * 146097
  let yoe := Int.fdiv (doe - Int.fdiv doe 1460 + Int.fdiv doe 36524 - Int.fdiv doe 146096) 365
  let y := yoe + era * 400
  let doy := doe - (365 * yoe + Int.fdiv yoe 4 - Int.fdiv yoe 100)
  let mp := Int.fdiv (5 * doy + 2) 153
  let d := doy - Int.fdiv (153 * mp + 2) 5 + 1
  let m := if mp < 10 then mp + 3 else mp - 9
  (if m ≤ 2 then y + 1 else y, m, d)

/-- Epoch seconds of a civil datetime taken as UTC (JavaScript
`Date.UTC(y, m - 1, d, h, mi, s) / 1000`). -/
def epochFromCivilSec (y m d h mi s : Int) : Int :=
  daysFromCivil y m d * 86400 + h * 3600 + mi * 60 + s

/-- Fuel-indexed digit renderer (the fuel only bounds the recursion depth;
`natDigits` always supplies enough). -/
def natDigitsAux : Nat → Nat → List Char
  | 0, _ => []
  | fuel + 1, n =>
    if n < 10 then [Char.ofNat (48 + n)]
    else natDigitsAux fuel (n / 10) ++ [Char.ofNat (48 + n % 10)]

/-- Decimal digits of a natural number, most significant first
(JavaScript `String(n)` for a nonnegative integer). -/
def natDigits (n : Nat) : List Char := natDigitsAux (n + 1) n

/-- JavaScript `String(n).padStart(2, '0')` for a nonnegative integer. -/
def pad2 (n : Int) : List Char :=
  let s := natDigits n.toNat
  List.replicate (2 - s.length) '0' ++ s

/-- Decimal rendering of a nonnegative integer without padding. -/
def intDigits (n : Int) : List Char := natDigits n.toNat

/-- JavaScript `new Date(t * 1000).toISOString()` for a whole-second epoch
instant: `YYYY-MM-DDTHH:MM:SS.000Z`. -/
def toIsoUtcString (t : Int) : List Char :=
  let day := Int.fdiv t 86400
  let sod := (t - day * 86400).toNat
  let ymd := civilFromDays day
  intDigits ymd.1 ++ '-' :: pad2 ymd.2.1 ++ '-' :: pad2 ymd.2.2 ++
    'T' :: pad2 (sod / 3600 : Nat) ++ ':' :: pad2 (sod / 60 % 60 : Nat) ++
    ':' :: pad2 (sod % 60 : Nat) ++ ".000Z".data

/-! ## Timezone model

A timezone is modelled by its UTC-offset function (seconds to add to a UTC
instant to obtain the zone's civil clock reading), the quantity the
TypeScript code recovers from the Intl database via its
`toLocaleString`-and-reparse trick. -/

/-- A timezone as an offset function over epoch seconds. -/
structure JsTimeZone where
  offSec : Int → Int

/-- The UTC timezone. -/
def utcZone : JsTimeZone := ⟨fun _ => 0⟩

/-- The UTC instant at which America/New_York springs forward in 2026
(2026-03-08 02:00 EST = 2026-03-08T07:00:00Z). -/
def nySpring2026 : Int := epochFromCivilSec 2026 3 8 7 0 0

/-- The UTC instant at which America/New_York falls back in 2026
(2026-11-01 02:00 EDT = 2026-11-01T06:00:00Z). -/
def nyFall2026 : Int := epochFromCivilSec 2026 11 1 6 0 0

/-- America/New_York, modelled from the IANA tz database: EDT (UTC-4) between
the 2026 spring-forward and fall-back instants, EST (UTC-5) otherwise.  The
offsets are exact for every instant from the November 2025 transition to the
March 2027 transition, which covers all instants evaluated in this file. -/
def americaNewYork : JsTimeZone :=
  ⟨fun t => if nySpring2026 ≤ t ∧ t < nyFall2026 then -14400 else -18000⟩

/-- JavaScript `new Date(dateString)` for an offset-less civil datetime string
whose fields, read as a UTC instant, are `civil`: the string is interpreted in
the machine timezone.  This model is exact for fixed-offset machine zones (the
only machine zones instantiated in this file); near a machine-zone transition
ECMAScript additionally disambiguates with the pre-transition offset. -/
def jsParseLocal (machine : JsTimeZone) (civil : Int) : Int :=
  civil - machine.offSec civil

/-- Epoch-second core of `naiveToUtcIso` (`src/dav/timezone.ts:237`): treat
the six components as a provisional UTC instant, render that instant through
a UTC formatter and a target-zone formatter, re-parse both renderings in the
machine zone, difference them, and subtract the difference. -/
def naiveToUtcEpoch (machine tz : JsTimeZone) (y mo d h mi s : Int) : Int :=
  let asUtc := epochFromCivilSec y mo d h mi s
  let utcRepr := jsParseLocal machine (asUtc + utcZone.offSec asUtc)
  let tzRepr := jsParseLocal machine (asUtc + tz.offSec asUtc)
  let offsetSec := tzRepr - utcRepr
  asUtc - offsetSec

/-- Numeric value of two decimal digit characters. -/
def digit2 (a b : Char) : Int := ((a.toNat - 48) * 10 + (b.toNat - 48) : Nat)

/-- Numeric value of four decimal digit characters. -/
def digit4 (a b c d : Char) : Int :=
  (((a.toNat - 48) * 1000 + (b.toNat - 48) * 100 + (c.toNat - 48) * 10 + (d.toNat - 48) : Nat))

/-- The anchored match `/^(\d{4})-(\d{2})-(\d{2})T(\d{2}):(\d{2}):(\d{2})$/`
of `naiveToUtcIso`: exactly nineteen characters, digits in the six component
positions, literal separators elsewhere. -/
def parseNaiveDateTime (s : List Char) : Option (Int × Int × Int × Int × Int × Int) :=
  match s with
  | [y1, y2, y3, y4, '-', m1, m2, '-', d1, d2, 'T', h1, h2, ':', i1, i2, ':', s1, s2] =>
    if ([y1, y2, y3, y4, m1, m2, d1, d2, h1, h2, i1, i2, s1, s2].all Char.isDigit) then
      some (digit4 y1 y2 y3 y4, digit2 m1 m2, digit2 d1 d2, digit2 h1 h2, digit2 i1 i2,
        digit2 s1 s2)
    else none
  | _ => none

/-- `naiveToUtcIso` (`src/dav/timezone.ts:237`): validate the naive format
(`none` models the thrown `Invalid naive datetime` error), convert through
`naiveToUtcEpoch`, and render with `toISOString`.  The machine timezone, an
ambient input of the JavaScript code, is an explicit parameter. -/
def naiveToUtcIso (machine tz : JsTimeZone) (naive : List Char) : Option (List Char) :=
  (parseNaiveDateTime naive).map fun c =>
    toIsoUtcString (naiveToUtcEpoch machine tz c.1 c.2.1 c.2.2.1 c.2.2.2.1 c.2.2.2.2.1 c.2.2.2.2.2)

example : daysFromCivil 1970 1 1 = 0 := by decide
example : civilFromDays 0 = (1970, 1, 1) := by decide
example : civilFromDays (daysFromCivil 2026 3 8) = (2026, 3, 8) := by decide
example : toIsoUtcString (epochFromCivilSec 2026 3 8 7 30 0) = "2026-03-08T07:30:00.000Z".data := by decide

/-! ## VTIMEZONE property synthesis and TZID extraction
(`buildCalendarTimezoneProperty`, `extractCalendarTimezone` in
`src/dav/timezone.ts`) -/

/-- The prefix-free capture `[^\r\n]+` of the TZID regex: the longest
CR/LF-free run. -/
def takeNoCrLf (s : List Char) : List Char :=
  s.takeWhile (fun c => c != '\r' && c != '\n')

/-- Leftmost-match scan of `/TZID:([^\r\n]+)/`: at each position try the
literal `TZID:` followed by a nonempty CR/LF-free capture; on failure advance
one character, exactly as the regex engine does. -/
def tzScan : List Char → Option (List Char)
  | [] => none
  | c :: rest =>
    if ("TZID:".data).isPrefixOf (c :: rest) then
      let cap := takeNoCrLf ((c :: rest).drop 5)
      if cap.isEmpty then tzScan rest else some cap
    else tzScan rest

/-- `extractCalendarTimezone` (`src/dav/timezone.ts:204`): `undefined` on a
missing or empty blob, else the first `TZID:` capture, trimmed, with a blank
result coerced to `undefined`. -/
def extractCalendarTimezone (vtimezone : Option (List Char)) : Option (List Char) :=
  match vtimezone with
  | none => none
  | some s =>
    if s.isEmpty then none
    else
      match tzScan s with
      | none => none
      | some cap => let t := jsTrim cap; if t.isEmpty then none else some t

/-- `buildCalendarTimezoneProperty` (`src/dav/timezone.ts:271`).  The
`offsetMin` parameter is the minute offset the JavaScript code derives from
the Intl database at the fixed January 2020 reference instant; everything
else is the literal line construction of the source. -/
def buildCalendarTimezoneProperty (offsetMin : Int) (tzId : List Char) : List Char :=
  let sign := if 0 ≤ offsetMin then '+' else '-'
  let absMin := offsetMin.natAbs
  let offsetStr := sign :: (pad2 (absMin / 60 : Nat) ++ pad2 (absMin % 60 : Nat))
  List.intercalate crlf
    [ "BEGIN:VCALENDAR".data,
      "PRODID:-//fastmail-mcp//EN".data,
      "VERSION:2.0".data,
      "BEGIN:VTIMEZONE".data,
      "TZID:".data ++ tzId,
      "BEGIN:STANDARD".data,
      "DTSTART:19700101T000000".data,
      "TZOFFSETFROM:".data ++ offsetStr,
      "TZOFFSETTO:".data ++ offsetStr,
      "END:STANDARD".data,
      "END:VTIMEZONE".data,
      "END:VCALENDAR".data ]

/-- The character repertoire of IANA timezone identifiers (letters, digits,
underscore, hyphen, plus, slash), the syntactic shape every identifier
accepted by `isValidTimezone` has. -/
def isIanaChar (c : Char) : Bool :=
  let n := c.toNat
  (65 <= n && n <= 90) || (97 <= n && n <= 122) || (48 <= n && n <= 57) ||
  n = 95 || n = 45 || n = 43 || n = 47

/-! ## Small list lemmas shared by the codec proofs -/

theorem dropWhile_eq_self_of_all (p : Char → Bool) (l : List Char)
    (h : ∀ c ∈ l, p c = false) : l.dropWhile p = l := by
  cases l with
  | nil => rfl
  | cons c t => simp [List.dropWhile, h c (by simp)]

theorem jsTrim_eq_self (l : List Char) (h : ∀ c ∈ l, isJsWs c = false) :
    jsTrim l = l := by
  unfold jsTrim
  rw [dropWhile_eq_self_of_all isJsWs l h,
      dropWhile_eq_self_of_all isJsWs l.reverse (by intro c hc; exact h c (List.mem_reverse.mp hc)),
      List.reverse_reverse]

theorem takeWhile_append_of_all (p : Char → Bool) (l : List Char) (c : Char) (r : List Char)
    (h : ∀ x ∈ l, p x = true) (hc : p c = false) :
    (l ++ c :: r).takeWhile p = l := by
  induction l with
  | nil => simp [List.takeWhile, hc]
  | cons a t ih =>
    simp only [List.cons_append, List.takeWhile_cons, h a (by simp)]
    simp [ih (fun x hx => h x (by simp [hx]))]

/-- No IANA-repertoire character is CR or LF. -/
theorem isIanaChar_not_cr_lf (c : Char) (h : isIanaChar c = true) :
    (c != '\r' && c != '\n') = true := by
  simp only [Bool.and_eq_true, bne_iff_ne, ne_eq]
  constructor <;> rintro rfl <;> revert h <;> decide

/-- No IANA-repertoire character is JavaScript whitespace. -/
theorem isIanaChar_not_ws (c : Char) (h : isIanaChar c = true) : isJsWs c = false := by
  revert h
  unfold isIanaChar isJsWs
  simp only [Bool.or_eq_true, Bool.and_eq_true, decide_eq_true_eq, Bool.or_eq_false_iff,
    Bool.and_eq_false_iff, decide_eq_false_iff_not]
  omega

/-! ## Claim C1: spring-forward gap resolution of naiveToUtcIso -/

/-- Claim C1: the claim (backed by the repository's own test
`timezone.test.ts:129` and the spec) states that
`naiveToUtcIso("2026-03-08T03:30:00", "America/New_York")` returns
`2026-03-08T07:30:00.000Z`, the interpretation using the offset in effect
after the spring-forward gap.  The code instead computes the target zone's
offset at the provisional UTC instant 2026-03-08T03:30:00Z, which lies before
the 07:00Z transition and is therefore still EST (UTC-5), yielding
`2026-03-08T08:30:00.000Z` whenever the machine timezone has no transition of
its own at that instant (here: a UTC machine).  The third conjunct re-checks
the embedding on the standard-offset example of the spec, where code and
claim agree. -/
theorem naiveToUtcIso_gap_divergence :
    naiveToUtcIso utcZone americaNewYork ("2026-03-08T03:30:00".data)
        = some ("2026-03-08T08:30:00.000Z".data) ∧
    some ("2026-03-08T08:30:00.000Z".data) ≠ some ("2026-03-08T07:30:00.000Z".data) ∧
    naiveToUtcIso utcZone americaNewYork ("2026-01-15T14:30:00".data)
        = some ("2026-01-15T19:30:00.000Z".data) := by
  refine ⟨by decide, by decide, by decide⟩

/-! ## Claim C7: VTIMEZONE property round-trip -/

/-- Claim C7: for every syntactically valid IANA timezone identifier (a
nonempty string over letters, digits, underscore, hyphen, plus and slash),
extracting the timezone from the synthesized VCALENDAR/VTIMEZONE property
round-trips: `extractCalendarTimezone (buildCalendarTimezoneProperty tz) = tz`,
for every offset value the Intl database may supply to the builder. -/
theorem buildCalendarTimezoneProperty_roundtrip (offsetMin : Int) (tzId : List Char)
    (hne : tzId ≠ []) (hc : ∀ c ∈ tzId, isIanaChar c = true) :
    extractCalendarTimezone (some (buildCalendarTimezoneProperty offsetMin tzId)) = some tzId := by
  have hcap : ∀ r : List Char, takeNoCrLf (tzId ++ '\r' :: r) = tzId := fun r =>
    takeWhile_append_of_all _ tzId '\r' r (fun x hx => isIanaChar_not_cr_lf x (hc x hx)) (by decide)
  unfold buildCalendarTimezoneProperty extractCalendarTimezone
  simp only [List.intercalate, List.intersperse, List.flatten, crlf, List.append_assoc,
    List.cons_append, List.nil_append]
  simp [tzScan, List.isPrefixOf, hcap, hne,
    jsTrim_eq_self tzId (fun c h => isIanaChar_not_ws c (hc c h))]

/-- Witness for C7 at the concrete identifier Europe/London with the real
UTC offset (0 minutes) of the January reference instant. -/
theorem buildCalendarTimezoneProperty_roundtrip_witness :
    extractCalendarTimezone (some (buildCalendarTimezoneProperty 0 ("Europe/London".data)))
        = some ("Europe/London".data) :=
  buildCalendarTimezoneProperty_roundtrip 0 ("Europe/London".data) (by decide) (by decide)

/-! ## iCalendar codec (`src/dav/client.ts`: `escText`, `foldLine`,
`buildIcsEvent`, `parseIcsSummary`) -/

/-- `escText` (`src/dav/client.ts:72`): the five sequential global replaces —
backslash doubled, LF to literal backslash-n, CR removed, semicolon and comma
backslash-escaped, in source order. -/
def escText (v : List Char) : List Char :=
  replAll ',' ['\\', ','] (replAll ';' ['\\', ';'] (replAll '\r' []
    (replAll '\n' ['\\', 'n'] (replAll '\\' ['\\', '\\'] v))))

/-- Fuel-indexed body of `foldLine`; the fuel only bounds the loop count and
`foldLine` always supplies enough (each iteration shortens the line by 71). -/
def foldLineAux : Nat → List Char → List Char
  | 0, l => l
  | fuel + 1, l =>
    if l.length ≤ 72 then l
    else l.take 72 ++ crlf ++ foldLineAux fuel (' ' :: l.drop 72)

/-- `foldLine` (`src/dav/client.ts:58`): repeatedly peel 72 characters,
continuing each subsequent chunk with a single leading space, joined by CRLF. -/
def foldLine (l : List Char) : List Char := foldLineAux l.length l

/-- The global replace `ics.replace(/\r?\n[ \t]/g, '')` that reverses line
folding: scanning left to right, CRLF-or-LF followed by a space or tab is
deleted; everything else is kept. -/
def unfoldLines : List Char → List Char
  | '\r' :: '\n' :: c :: rest =>
    if c = ' ' ∨ c = '\t' then unfoldLines rest
    else '\r' :: unfoldLines ('\n' :: c :: rest)
  | '\n' :: c :: rest =>
    if c = ' ' ∨ c = '\t' then unfoldLines rest
    else '\n' :: unfoldLines (c :: rest)
  | c :: rest => c :: unfoldLines rest
  | [] => []

/-- The suffix following the first colon of a string, if any: this is where
the greedy `[^:]*:` of the summary regexes resumes. -/
def findColon : List Char → Option (List Char)
  | [] => none
  | c :: rest => if c = ':' then some rest else findColon rest

/-- Leftmost match of `new RegExp(`\n` + key + `[^:]*:(.*)`)` followed by the
`.trim()` of the first capture, advancing one character on every failed
attempt, exactly as the regex engine does.  Note that `[^:]*` may legally run
across line breaks when the key's line carries no colon. -/
def jsGetAux (key : List Char) : List Char → Option (List Char)
  | [] => none
  | c :: rest =>
    if c = '\n' then
      if key.isPrefixOf rest then
        match findColon (rest.drop key.length) with
        | some after => some (jsTrim (takeLineVal after))
        | none => jsGetAux key rest
      else jsGetAux key rest
    else jsGetAux key rest

/-- The `get` helper of `parseIcsSummary` over already-unfolded text. -/
def jsGet (key : List Char) (s : List Char) : Option (List Char) := jsGetAux key s

/-- The summary record returned by `parseIcsSummary`; `dtstart`/`dtend` are
the `start`/`end` fields of the TypeScript record. -/
structure IcsSummary where
  uid : Option (List Char)
  title : Option (List Char)
  dtstart : Option (List Char)
  dtend : Option (List Char)
  location : Option (List Char)
deriving DecidableEq

/-- `parseIcsSummary` (`src/dav/client.ts:119`): unfold continuations, then
extract the first value after each key. -/
def parseIcsSummary (ics : List Char) : IcsSummary :=
  let unfolded := unfoldLines ics
  { uid := jsGet ("UID".data) unfolded
    title := jsGet ("SUMMARY".data) unfolded
    dtstart := jsGet ("DTSTART".data) unfolded
    dtend := jsGet ("DTEND".data) unfolded
    location := jsGet ("LOCATION".data) unfolded }

/-- An attendee of `CreateEventInput`. -/
structure Attendee where
  email : List Char
  name : Option (List Char)
deriving DecidableEq

/-- `CreateEventInput` (`src/dav/client.ts:28`).  The `start`/`end` ISO
strings are represented by the epoch instants they denote (`endTime` is the
`end` field): by the time `buildIcsEvent` runs they are valid offset-aware
datetimes, and `toIcsDateTime` only consumes their instant. -/
structure CreateEventInput where
  title : List Char
  start : Int
  endTime : Int
  description : Option (List Char)
  location : Option (List Char)
  organizerEmail : List Char
  organizerName : Option (List Char)
  attendees : List Attendee
deriving DecidableEq

/-- `toIcsDateTime` (`src/dav/client.ts:39`) on the instant a valid ISO input
denotes: UTC fields rendered as `YYYYMMDDTHHMMSSZ` (year unpadded, the rest
zero-padded to two digits). -/
def toIcsDateTime (t : Int) : List Char :=
  let day := Int.fdiv t 86400
  let sod := (t - day * 86400).toNat
  let ymd := civilFromDays day
  intDigits ymd.1 ++ pad2 ymd.2.1 ++ pad2 ymd.2.2 ++
    'T' :: (pad2 (sod / 3600 : Nat) ++ pad2 (sod / 60 % 60 : Nat) ++ pad2 (sod % 60 : Nat)) ++ ['Z']

/-- Result record of `buildIcsEvent`. -/
structure BuiltIcs where
  uid : List Char
  ics : List Char
  filename : List Char
deriving DecidableEq

/-- The optional `;CN=...` parameter prefix used for ORGANIZER and ATTENDEE. -/
def cnParam : Option (List Char) → List Char
  | some n => ';' :: ("CN=".data ++ escText n)
  | none => []

/-- `buildIcsEvent` (`src/dav/client.ts:81`).  The freshly generated
`randomUUID` and the `DTSTAMP` instant are explicit parameters; the line
construction, escaping, folding and CRLF join follow the source literally. -/
def buildIcsEvent (uid : List Char) (now : Int) (input : CreateEventInput) : BuiltIcs :=
  let dtstamp := toIcsDateTime now
  let dtstart := toIcsDateTime input.start
  let dtend := toIcsDateTime input.endTime
  let lines : List (List Char) :=
    [ "BEGIN:VCALENDAR".data, "VERSION:2.0".data, "PRODID:-//fastmail-mcp//EN".data,
      "CALSCALE:GREGORIAN".data, "BEGIN:VEVENT".data,
      "UID:".data ++ uid, "DTSTAMP:".data ++ dtstamp, "DTSTART:".data ++ dtstart,
      "DTEND:".data ++ dtend,
      foldLine ("ORGANIZER".data ++ cnParam input.organizerName ++ ":mailto:".data ++ input.organizerEmail),
      foldLine ("SUMMARY:".data ++ escText input.title) ]
    ++ (match input.description with
        | some d => [foldLine ("DESCRIPTION:".data ++ escText d)]
        | none => [])
    ++ (match input.location with
        | some l => [foldLine ("LOCATION:".data ++ escText l)]
        | none => [])
    ++ input.attendees.map (fun a =>
        foldLine ("ATTENDEE".data ++ cnParam a.name ++ ":mailto:".data ++ a.email))
    ++ ["END:VEVENT".data, "END:VCALENDAR".data]
  { uid := uid, ics := List.intercalate crlf lines ++ crlf, filename := uid ++ ".ics".data }

/-! ## Folding / unfolding lemmas -/

/-- A physical line is safe to unfold and scan when it contains neither LF
nor CR. -/
def cleanLine (l : List Char) : Prop := ∀ c ∈ l, c ≠ '\n' ∧ c ≠ '\r' 

/-- A continuation is not merged by unfolding iff it does not start with a
space or tab. -/
def goodHead : List Char → Bool
  | [] => true
  | c :: _ => !(c == ' ' || c == '\t')

theorem unfold_cons_other (c : Char) (rest : List Char) (h1 : c ≠ '\r') (h2 : c ≠ '\n') :
    unfoldLines (c :: rest) = c :: unfoldLines rest := by
  cases rest with
  | nil => simp [unfoldLines, h1, h2]
  | cons b t =>
    cases t with
    | nil => simp [unfoldLines, h1, h2]
    | cons e u => simp [unfoldLines, h1, h2]

theorem unfold_crlf_ws (c : Char) (rest : List Char) (h : c = ' ' ∨ c = '\t') :
    unfoldLines ('\r' :: '\n' :: c :: rest) = unfoldLines rest := by
  simp [unfoldLines, h]

theorem unfold_crlf_good (s : List Char) (h : goodHead s = true) :
    unfoldLines ('\r' :: '\n' :: s) = '\r' :: '\n' :: unfoldLines s := by
  cases s with
  | nil => simp [unfoldLines]
  | cons c t =>
    simp only [goodHead, Bool.not_eq_true', Bool.or_eq_false_iff, beq_eq_false_iff_ne, ne_eq] at h
    simp [unfoldLines, h.1, h.2]

theorem unfold_append_clean (l s : List Char) (h : cleanLine l) :
    unfoldLines (l ++ s) = l ++ unfoldLines s := by
  induction l with
  | nil => rfl
  | cons a t ih =>
    have ha := h a (by simp)
    rw [List.cons_append, unfold_cons_other a _ ha.2 ha.1,
      ih (fun c hc => h c (by simp [hc]))]
    rfl

theorem unfold_line_raw (l s : List Char) (hcl : cleanLine l) (hgood : goodHead s = true) :
    unfoldLines (l ++ '\r' :: '\n' :: s) = l ++ '\r' :: '\n' :: unfoldLines s := by
  rw [unfold_append_clean l _ hcl, unfold_crlf_good s hgood]

theorem foldLineAux_congr (f1 : Nat) :
    ∀ (f2 : Nat) (l : List Char), l.length ≤ f1 → l.length ≤ f2 →
      foldLineAux f1 l = foldLineAux f2 l := by
  induction f1 with
  | zero =>
    intro f2 l h1 _
    have : l = [] := List.eq_nil_of_length_eq_zero (Nat.le_zero.mp h1)
    subst this
    cases f2 <;> simp [foldLineAux]
  | succ f ih =>
    intro f2 l h1 h2
    cases f2 with
    | zero =>
      have : l = [] := List.eq_nil_of_length_eq_zero (Nat.le_zero.mp h2)
      subst this
      simp [foldLineAux]
    | succ g =>
      simp only [foldLineAux]
      by_cases hl : l.length ≤ 72
      · simp [hl]
      · simp only [hl, if_false]
        have hlen : (' ' :: l.drop 72).length = l.length - 71 := by
          simp [List.length_drop]; omega
        rw [ih g (' ' :: l.drop 72) (by omega) (by omega)]

theorem foldLine_eq (l : List Char) :
    foldLine l = if l.length ≤ 72 then l
      else l.take 72 ++ crlf ++ foldLine (' ' :: l.drop 72) := by
  show foldLineAux l.length l = _
  rw [foldLineAux_congr l.length (l.length + 1) l le_rfl (by omega),
      show foldLineAux (l.length + 1) l
          = if l.length ≤ 72 then l
            else l.take 72 ++ crlf ++ foldLineAux l.length (' ' :: l.drop 72) from rfl]
  split_ifs with h
  · rfl
  · show _ = _ ++ _ ++ foldLineAux (' ' :: l.drop 72).length _
    rw [foldLineAux_congr l.length (' ' :: l.drop 72).length (' ' :: l.drop 72)
      (by simp [List.length_drop]; omega) le_rfl]

theorem foldLine_cons (c : Char) (l : List Char) : ∃ t, foldLine (c :: l) = c :: t := by
  rw [foldLine_eq]
  split_ifs with h
  · exact ⟨l, rfl⟩
  · refine ⟨l.take 71 ++ crlf ++ foldLine (' ' :: (c :: l).drop 72), ?_⟩
    rw [show (c :: l).take 72 = c :: l.take 71 from rfl]
    simp [List.append_assoc]

theorem unfold_foldLine (n : Nat) :
    ∀ l s : List Char, l.length ≤ n → cleanLine l → goodHead s = true →
      unfoldLines (foldLine l ++ '\r' :: '\n' :: s) = l ++ '\r' :: '\n' :: unfoldLines s := by
  induction n with
  | zero =>
    intro l s hlen hcl hgood
    have : l = [] := List.eq_nil_of_length_eq_zero (Nat.le_zero.mp hlen)
    subst this
    simpa [foldLine, foldLineAux] using unfold_crlf_good s hgood
  | succ n ih =>
    intro l s hlen hcl hgood
    rw [foldLine_eq]
    by_cases h : l.length ≤ 72
    · simp only [h, if_true]
      exact unfold_line_raw l s hcl hgood
    · simp only [h, if_false]
      obtain ⟨y, hy⟩ := foldLine_cons ' ' (l.drop 72)
      have hclean_take : cleanLine (l.take 72) := fun c hc => hcl c (List.take_subset 72 l hc)
      have hclean_drop : cleanLine (' ' :: l.drop 72) := by
        intro c hc
        rcases List.mem_cons.mp hc with rfl | hc2
        · decide
        · exact hcl c (List.drop_subset 72 l hc2)
      have hih := ih (' ' :: l.drop 72) s (by simp [List.length_drop]; omega) hclean_drop hgood
      rw [hy] at hih
      have hcons := unfold_cons_other ' ' (y ++ '\r' :: '\n' :: s) (by decide) (by decide)
      rw [List.cons_append, hcons] at hih
      have hinner : unfoldLines (y ++ '\r' :: '\n' :: s) = l.drop 72 ++ '\r' :: '\n' :: unfoldLines s := by
        have h2 := hih
        rw [List.cons_append] at h2
        exact (List.cons.inj h2).2
      calc unfoldLines (l.take 72 ++ crlf ++ foldLine (' ' :: l.drop 72) ++ '\r' :: '\n' :: s)
          = unfoldLines (l.take 72 ++ ('\r' :: '\n' :: (' ' :: (y ++ '\r' :: '\n' :: s)))) := by
            simp [crlf, hy, List.append_assoc]
        _ = l.take 72 ++ unfoldLines ('\r' :: '\n' :: (' ' :: (y ++ '\r' :: '\n' :: s))) :=
            unfold_append_clean _ _ hclean_take
        _ = l.take 72 ++ unfoldLines (y ++ '\r' :: '\n' :: s) := by
            rw [unfold_crlf_ws ' ' _ (Or.inl rfl)]
        _ = l.take 72 ++ (l.drop 72 ++ '\r' :: '\n' :: unfoldLines s) := by rw [hinner]
        _ = l ++ '\r' :: '\n' :: unfoldLines s := by rw [← List.append_assoc, List.take_append_drop]

/-! ## Join-level unfolding -/

/-- The physical rendering of a logical line: folded or raw, as the builder
chooses per line. -/
def physLine : List Char × Bool → List Char
  | (l, true) => foldLine l
  | (l, false) => l

/-- The physical wire text of a line list: every physical line followed by
CRLF (this is `lines.join('\r\n') + '\r\n'`). -/
def wireJoin (ls : List (List Char × Bool)) : List Char :=
  (ls.map (fun p => physLine p ++ crlf)).flatten

/-- The same join without folding. -/
def cleanJoin (ls : List (List Char × Bool)) : List Char :=
  (ls.map (fun p => p.1 ++ crlf)).flatten

theorem goodHead_wireJoin (ls : List (List Char × Bool))
    (h : ∀ p ∈ ls, goodHead p.1 = true) : goodHead (wireJoin ls) = true := by
  cases ls with
  | nil => rfl
  | cons p rest =>
    obtain ⟨l, b⟩ := p
    cases l with
    | nil =>
      cases b <;> simp [wireJoin, physLine, foldLine, foldLineAux, crlf, goodHead]
    | cons c t =>
      have hg : goodHead (c :: t) = true := h (c :: t, b) (by simp)
      cases b with
      | false => simpa [wireJoin, physLine, goodHead] using hg
      | true =>
        obtain ⟨y, hy⟩ := foldLine_cons c t
        simpa [wireJoin, physLine, hy, goodHead] using hg

theorem unfold_wireJoin (ls : List (List Char × Bool))
    (hc : ∀ p ∈ ls, cleanLine p.1) (hg : ∀ p ∈ ls, goodHead p.1 = true) :
    unfoldLines (wireJoin ls) = cleanJoin ls := by
  induction ls with
  | nil => rfl
  | cons p rest ih =>
    obtain ⟨l, b⟩ := p
    have hgj : goodHead (wireJoin rest) = true :=
      goodHead_wireJoin rest (fun q hq => hg q (by simp [hq]))
    have hcl : cleanLine l := hc (l, b) (by simp)
    have hjoin : wireJoin ((l, b) :: rest) = physLine (l, b) ++ '\r' :: '\n' :: wireJoin rest := by
      simp [wireJoin, crlf, List.append_assoc]
    have hclean : cleanJoin ((l, b) :: rest) = l ++ '\r' :: '\n' :: cleanJoin rest := by
      simp [cleanJoin, crlf, List.append_assoc]
    rw [hjoin, hclean]
    cases b with
    | false =>
      rw [show physLine (l, false) = l from rfl, unfold_line_raw l _ hcl hgj,
        ih (fun q hq => hc q (by simp [hq])) (fun q hq => hg q (by simp [hq]))]
    | true =>
      rw [show physLine (l, true) = foldLine l from rfl,
        unfold_foldLine l.length l _ le_rfl hcl hgj,
        ih (fun q hq => hc q (by simp [hq])) (fun q hq => hg q (by simp [hq]))]

/-! ## Scanning lemmas for the summary regexes -/

theorem isPrefixOf_append_self (key u : List Char) : key.isPrefixOf (key ++ u) = true := by
  induction key with
  | nil => simp [List.isPrefixOf]
  | cons a t ih => simp [List.isPrefixOf, ih]

theorem isPrefixOf_ne_head (a b : Char) (as bs : List Char) (h : a ≠ b) :
    (a :: as).isPrefixOf (b :: bs) = false := by
  simp [List.isPrefixOf, h]

theorem jsGetAux_skip_seg (key l s : List Char) (h : ∀ c ∈ l, c ≠ '\n') :
    jsGetAux key (l ++ s) = jsGetAux key s := by
  induction l with
  | nil => rfl
  | cons a t ih =>
    have ha : a ≠ '\n' := h a (by simp)
    rw [List.cons_append, show jsGetAux key (a :: (t ++ s)) = jsGetAux key (t ++ s) by
      simp [jsGetAux, ha]]
    exact ih (fun c hc => h c (by simp [hc]))

theorem jsGetAux_nl_nomatch (key s : List Char) (h : key.isPrefixOf s = false) :
    jsGetAux key ('\n' :: s) = jsGetAux key s := by
  simp [jsGetAux, h]

theorem jsGetAux_nl_match (key u after : List Char) (h : findColon u = some after) :
    jsGetAux key ('\n' :: (key ++ u)) = some (jsTrim (takeLineVal after)) := by
  simp [jsGetAux, isPrefixOf_append_self, List.drop_left, h]

theorem jsGet_step_line (key l s : List Char) (hl : cleanLine l)
    (hs : key.isPrefixOf s = false) :
    jsGetAux key (l ++ '\r' :: '\n' :: s) = jsGetAux key s := by
  rw [show l ++ '\r' :: '\n' :: s = (l ++ ['\r']) ++ '\n' :: s by simp,
    jsGetAux_skip_seg key (l ++ ['\r']) _ (by
      intro c hc
      rcases List.mem_append.mp hc with hc1 | hc2
      · exact (hl c hc1).1
      · simp at hc2; subst hc2; decide),
    jsGetAux_nl_nomatch key s hs]

theorem jsGet_found_line (key l u after : List Char) (hl : cleanLine l)
    (h : findColon u = some after) :
    jsGetAux key (l ++ '\r' :: '\n' :: (key ++ u)) = some (jsTrim (takeLineVal after)) := by
  rw [show l ++ '\r' :: '\n' :: (key ++ u) = (l ++ ['\r']) ++ '\n' :: (key ++ u) by simp,
    jsGetAux_skip_seg key (l ++ ['\r']) _ (by
      intro c hc
      rcases List.mem_append.mp hc with hc1 | hc2
      · exact (hl c hc1).1
      · simp at hc2; subst hc2; decide),
    jsGetAux_nl_match key u after h]

/-! ## Escaping lemmas -/

theorem replAll_id (t : Char) (repl s : List Char) (h : ∀ c ∈ s, c ≠ t) :
    replAll t repl s = s := by
  induction s with
  | nil => rfl
  | cons a u ih =>
    have ha := h a (by simp)
    have hu := ih (fun c hc => h c (by simp [hc]))
    simp only [replAll, List.flatMap_cons, ha, if_false] at *
    simp [hu]

theorem mem_replAll (t : Char) (repl s : List Char) (c : Char) (h : c ∈ replAll t repl s) :
    c ∈ repl ∨ (c ∈ s ∧ c ≠ t) := by
  induction s with
  | nil => simp [replAll] at h
  | cons a u ih =>
    simp only [replAll, List.flatMap_cons, List.mem_append] at h
    rcases h with h1 | h2
    · by_cases hat : a = t
      · simp [hat] at h1; exact Or.inl h1
      · simp [hat] at h1; subst h1; exact Or.inr ⟨by simp, hat⟩
    · rcases ih h2 with h3 | h4
      · exact Or.inl h3
      · exact Or.inr ⟨by simp [h4.1], h4.2⟩

/-- Characters whose iCalendar escaping is the identity, and which survive a
regex capture unchanged: not one of the five escaped characters (backslash,
LF, CR, semicolon, comma), not a LINE/PARAGRAPH SEPARATOR. -/
def icsSafeChar (c : Char) : Bool :=
  let n := c.toNat
  !(n = 92 || n = 10 || n = 13 || n = 59 || n = 44) && !(n = 0x2028 || n = 0x2029)

theorem icsSafe_props (c : Char) (h : icsSafeChar c = true) :
    c ≠ '\\' ∧ c ≠ '\n' ∧ c ≠ '\r' ∧ c ≠ ';' ∧ c ≠ ',' ∧ isLineTerm c = false := by
  simp only [icsSafeChar, Bool.and_eq_true, Bool.not_eq_true', Bool.or_eq_false_iff,
    decide_eq_false_iff_not] at h
  refine ⟨?_, ?_, ?_, ?_, ?_, ?_⟩
  · rintro rfl; revert h; decide
  · rintro rfl; revert h; decide
  · rintro rfl; revert h; decide
  · rintro rfl; revert h; decide
  · rintro rfl; revert h; decide
  · simp only [isLineTerm, Bool.or_eq_false_iff, decide_eq_false_iff_not]
    omega

theorem escText_id (v : List Char) (h : ∀ c ∈ v, icsSafeChar c = true) :
    escText v = v := by
  have hget : ∀ c ∈ v, c ≠ '\\' ∧ c ≠ '\n' ∧ c ≠ '\r' ∧ c ≠ ';' ∧ c ≠ ',' := by
    intro c hc
    have := icsSafe_props c (h c hc)
    exact ⟨this.1, this.2.1, this.2.2.1, this.2.2.2.1, this.2.2.2.2.1⟩
  unfold escText
  rw [replAll_id '\\' _ v (fun c hc => (hget c hc).1),
      replAll_id '\n' _ v (fun c hc => (hget c hc).2.1),
      replAll_id '\r' _ v (fun c hc => (hget c hc).2.2.1),
      replAll_id ';' _ v (fun c hc => (hget c hc).2.2.2.1),
      replAll_id ',' _ v (fun c hc => (hget c hc).2.2.2.2)]

/-- Escaped text never contains a raw LF or CR, whatever the input. -/
theorem escText_no_crlf (v : List Char) : ∀ c ∈ escText v, c ≠ '\n' ∧ c ≠ '\r' := by
  intro c hc
  unfold escText at hc
  rcases mem_replAll _ _ _ _ hc with h5 | ⟨hc, _⟩
  · simp only [List.mem_cons, List.mem_singleton, List.not_mem_nil, or_false] at h5
    rcases h5 with rfl | rfl <;> exact ⟨by decide, by decide⟩
  rcases mem_replAll _ _ _ _ hc with h4 | ⟨hc, _⟩
  · simp only [List.mem_cons, List.mem_singleton, List.not_mem_nil, or_false] at h4
    rcases h4 with rfl | rfl <;> exact ⟨by decide, by decide⟩
  rcases mem_replAll _ _ _ _ hc with h3 | ⟨hc, hr⟩
  · simp at h3
  rcases mem_replAll _ _ _ _ hc with h2 | ⟨hc, hn⟩
  · simp only [List.mem_cons, List.mem_singleton, List.not_mem_nil, or_false] at h2
    rcases h2 with rfl | rfl <;> exact ⟨by decide, by decide⟩
  exact ⟨hn, hr⟩

/-- The CN parameter never contains a raw LF or CR. -/
theorem cnParam_no_crlf (o : Option (List Char)) : ∀ c ∈ cnParam o, c ≠ '\n' ∧ c ≠ '\r' := by
  intro c hc
  cases o with
  | none => simp [cnParam] at hc
  | some n =>
    simp only [cnParam, List.mem_cons, List.mem_append] at hc
    rcases hc with rfl | hc
    · exact ⟨by decide, by decide⟩
    rcases hc with hc | hc
    · simp only [List.mem_cons, List.mem_singleton, List.not_mem_nil, or_false,
        show ("CN=".data) = ['C', 'N', '='] from rfl] at hc
      rcases hc with rfl | rfl | rfl <;> exact ⟨by decide, by decide⟩
    · exact escText_no_crlf n c hc

/-! ## Digit-shaped strings -/

theorem natDigitsAux_bounds (fuel : Nat) :
    ∀ n c, c ∈ natDigitsAux fuel n → 48 ≤ c.toNat ∧ c.toNat ≤ 57 := by
  induction fuel with
  | zero => intro n c hc; simp [natDigitsAux] at hc
  | succ f ih =>
    intro n c hc
    simp only [natDigitsAux] at hc
    by_cases h : n < 10
    · simp [h] at hc
      subst hc
      interval_cases n <;> decide
    · simp only [h, if_false, List.mem_append, List.mem_singleton] at hc
      rcases hc with hc | hc
      · exact ih (n / 10) c hc
      · subst hc
        have hm : n % 10 < 10 := Nat.mod_lt n (by omega)
        set k := n % 10 with hk
        interval_cases k <;> decide

theorem pad2_bounds (n : Int) : ∀ c ∈ pad2 n, 48 ≤ c.toNat ∧ c.toNat ≤ 57 := by
  intro c hc
  simp only [pad2, List.mem_append] at hc
  rcases hc with hc | hc
  · have := List.eq_of_mem_replicate hc
    subst this; decide
  · exact natDigitsAux_bounds _ _ c hc

theorem intDigits_bounds (n : Int) : ∀ c ∈ intDigits n, 48 ≤ c.toNat ∧ c.toNat ≤ 57 := by
  intro c hc
  exact natDigitsAux_bounds _ _ c hc

theorem toIcsDateTime_shape (t : Int) :
    ∀ c ∈ toIcsDateTime t, (48 ≤ c.toNat ∧ c.toNat ≤ 57) ∨ c = 'T' ∨ c = 'Z' := by
  intro c hc
  simp only [toIcsDateTime] at hc
  rcases List.mem_append.mp hc with h1 | hz
  · rcases List.mem_append.mp h1 with h2 | ht
    · rcases List.mem_append.mp h2 with h3 | hd2
      · rcases List.mem_append.mp h3 with h4 | hd1
        · exact Or.inl (intDigits_bounds _ c h4)
        · exact Or.inl (pad2_bounds _ c hd1)
      · exact Or.inl (pad2_bounds _ c hd2)
    · rcases List.mem_cons.mp ht with rfl | hrest
      · exact Or.inr (Or.inl rfl)
      · rcases List.mem_append.mp hrest with h5 | h6
        · rcases List.mem_append.mp h5 with h7 | h8
          · exact Or.inl (pad2_bounds _ c h7)
          · exact Or.inl (pad2_bounds _ c h8)
        · exact Or.inl (pad2_bounds _ c h6)
  · simp only [List.mem_singleton] at hz
    subst hz; exact Or.inr (Or.inr rfl)

theorem toIcsDateTime_clean (t : Int) : cleanLine (toIcsDateTime t) := by
  intro c hc
  rcases toIcsDateTime_shape t c hc with ⟨h1, h2⟩ | rfl | rfl
  · constructor <;> rintro rfl <;> revert h1 h2 <;> decide
  · exact ⟨by decide, by decide⟩
  · exact ⟨by decide, by decide⟩

/-- The character repertoire of `randomUUID` output: lowercase hex digits and
hyphens. -/
def isUuidChar (c : Char) : Bool :=
  let n := c.toNat
  (48 <= n && n <= 57) || (97 <= n && n <= 102) || n = 45

theorem isUuidChar_props (c : Char) (h : isUuidChar c = true) :
    (c ≠ '\n' ∧ c ≠ '\r') ∧ isLineTerm c = false ∧ isJsWs c = false := by
  simp only [isUuidChar, Bool.or_eq_true, Bool.and_eq_true, decide_eq_true_eq] at h
  refine ⟨⟨?_, ?_⟩, ?_, ?_⟩
  · rintro rfl; revert h; decide
  · rintro rfl; revert h; decide
  · simp only [isLineTerm, Bool.or_eq_false_iff, decide_eq_false_iff_not]; omega
  · simp only [isJsWs, Bool.or_eq_false_iff, Bool.and_eq_false_iff,
      decide_eq_false_iff_not]
    omega

theorem intercalate_crlf_flatten (x : List Char) (xs : List (List Char)) :
    List.intercalate crlf (x :: xs) ++ crlf = ((x :: xs).map (· ++ crlf)).flatten := by
  induction xs generalizing x with
  | nil => simp [List.intercalate]
  | cons y ys ih =>
    have hstep : List.intercalate crlf (x :: y :: ys) = x ++ crlf ++ List.intercalate crlf (y :: ys) := by
      simp [List.intercalate, List.intersperse]
    rw [hstep, List.append_assoc (x ++ crlf), ih y]
    simp [List.append_assoc]

def icsLines (uid : List Char) (now : Int) (input : CreateEventInput) : List (List Char × Bool) :=
  [ ("BEGIN:VCALENDAR".data, false), ("VERSION:2.0".data, false),
    ("PRODID:-//fastmail-mcp//EN".data, false), ("CALSCALE:GREGORIAN".data, false),
    ("BEGIN:VEVENT".data, false),
    ("UID:".data ++ uid, false), ("DTSTAMP:".data ++ toIcsDateTime now, false),
    ("DTSTART:".data ++ toIcsDateTime input.start, false),
    ("DTEND:".data ++ toIcsDateTime input.endTime, false),
    ("ORGANIZER".data ++ cnParam input.organizerName ++ ":mailto:".data ++ input.organizerEmail, true),
    ("SUMMARY:".data ++ escText input.title, true) ]
  ++ (match input.description with
      | some d => [("DESCRIPTION:".data ++ escText d, true)]
      | none => [])
  ++ (match input.location with
      | some l => [("LOCATION:".data ++ escText l, true)]
      | none => [])
  ++ input.attendees.map (fun a =>
      ("ATTENDEE".data ++ cnParam a.name ++ ":mailto:".data ++ a.email, true))
  ++ [("END:VEVENT".data, false), ("END:VCALENDAR".data, false)]

theorem buildIcsEvent_ics_eq (uid : List Char) (now : Int) (input : CreateEventInput) :
    (buildIcsEvent uid now input).ics = wireJoin (icsLines uid now input) := by
  unfold buildIcsEvent icsLines wireJoin
  cases input.description <;> cases input.location <;>
    simp [physLine, List.map_map, Function.comp_def, intercalate_crlf_flatten]

theorem all_ne_crlf (l : List Char)
    (hl : l.all (fun c => !(c == '\n') && !(c == '\r')) = true) :
    ∀ c ∈ l, c ≠ '\n' ∧ c ≠ '\r' := by
  intro c hc
  have := List.all_eq_true.mp hl c hc
  simp only [Bool.and_eq_true, Bool.not_eq_true', beq_eq_false_iff_ne, ne_eq] at this
  exact this

theorem mailto_clean (kw : List Char) (cn : Option (List Char)) (em : List Char)
    (hk : ∀ c ∈ kw, c ≠ '\n' ∧ c ≠ '\r') (he : ∀ c ∈ em, c ≠ '\n' ∧ c ≠ '\r') :
    cleanLine (kw ++ cnParam cn ++ ":mailto:".data ++ em) := by
  intro c hc
  rcases List.mem_append.mp hc with h | h
  · rcases List.mem_append.mp h with h2 | h2
    · rcases List.mem_append.mp h2 with h3 | h3
      · exact hk c h3
      · exact cnParam_no_crlf cn c h3
    · exact all_ne_crlf (":mailto:".data) (by decide) c h2
  · exact he c h

theorem prefix_clean (kw rest : List Char)
    (hk : kw.all (fun c => !(c == '\n') && !(c == '\r')) = true)
    (hr : ∀ c ∈ rest, c ≠ '\n' ∧ c ≠ '\r') :
    cleanLine (kw ++ rest) := by
  intro c hc
  rcases List.mem_append.mp hc with h | h
  · exact all_ne_crlf kw hk c h
  · exact hr c h

theorem icsLines_clean (uid : List Char) (now : Int) (input : CreateEventInput)
    (huid : ∀ c ∈ uid, isUuidChar c = true)
    (hemail : ∀ c ∈ input.organizerEmail, c ≠ '\n' ∧ c ≠ '\r')
    (hatt : ∀ a ∈ input.attendees, ∀ c ∈ a.email, c ≠ '\n' ∧ c ≠ '\r') :
    ∀ p ∈ icsLines uid now input, cleanLine p.1 ∧ goodHead p.1 = true := by
  intro p hp
  simp only [icsLines, List.mem_append, List.mem_cons, List.mem_singleton,
    List.not_mem_nil, or_false, List.mem_map] at hp
  rcases hp with ((((rfl | rfl | rfl | rfl | rfl | rfl | rfl | rfl | rfl | rfl | rfl) | hd) | hl) | ⟨a, ha, rfl⟩) | rfl | rfl
  · exact ⟨all_ne_crlf _ (by decide), rfl⟩
  · exact ⟨all_ne_crlf _ (by decide), rfl⟩
  · exact ⟨all_ne_crlf _ (by decide), rfl⟩
  · exact ⟨all_ne_crlf _ (by decide), rfl⟩
  · exact ⟨all_ne_crlf _ (by decide), rfl⟩
  · exact ⟨prefix_clean _ uid (by decide) (fun c hc => (isUuidChar_props c (huid c hc)).1), rfl⟩
  · exact ⟨prefix_clean _ _ (by decide) (toIcsDateTime_clean now), rfl⟩
  · exact ⟨prefix_clean _ _ (by decide) (toIcsDateTime_clean input.start), rfl⟩
  · exact ⟨prefix_clean _ _ (by decide) (toIcsDateTime_clean input.endTime), rfl⟩
  · exact ⟨mailto_clean ("ORGANIZER".data) _ _ (all_ne_crlf ("ORGANIZER".data) (by decide)) hemail, rfl⟩
  · exact ⟨prefix_clean _ _ (by decide) (fun c hc => escText_no_crlf input.title c hc), rfl⟩
  · cases hde : input.description with
    | none => rw [hde] at hd; simp at hd
    | some d =>
      rw [hde] at hd; simp at hd; subst hd
      exact ⟨prefix_clean ("DESCRIPTION:".data) _ (by decide) (fun c hc => escText_no_crlf d c hc), rfl⟩
  · cases hlo : input.location with
    | none => rw [hlo] at hl; simp at hl
    | some l =>
      rw [hlo] at hl; simp at hl; subst hl
      exact ⟨prefix_clean ("LOCATION:".data) _ (by decide) (fun c hc => escText_no_crlf l c hc), rfl⟩
  · exact ⟨mailto_clean ("ATTENDEE".data) _ _ (all_ne_crlf ("ATTENDEE".data) (by decide)) (hatt a ha), rfl⟩
  · exact ⟨all_ne_crlf _ (by decide), rfl⟩
  · exact ⟨all_ne_crlf _ (by decide), rfl⟩

theorem takeWhile_all (p : Char → Bool) (l : List Char) (h : ∀ c ∈ l, p c = true) :
    l.takeWhile p = l := by
  induction l with
  | nil => rfl
  | cons a t ih =>
    simp [List.takeWhile_cons, h a (by simp), ih (fun c hc => h c (by simp [hc]))]

theorem takeWhile_append_stop (p : Char → Bool) (a : List Char) (c0 : Char) (r : List Char)
    (h : p c0 = false) : (a ++ c0 :: r).takeWhile p = a.takeWhile p := by
  induction a with
  | nil => simp [List.takeWhile_cons, h]
  | cons x t ih =>
    by_cases hx : p x
    · simp [List.takeWhile_cons, hx, ih]
    · simp [List.takeWhile_cons, hx]

theorem findColon_of_mem (v : List Char) (h : ':' ∈ v) : ∃ a, findColon v = some a := by
  induction v with
  | nil => simp at h
  | cons x t ih =>
    by_cases hx : x = ':'
    · exact ⟨t, by simp [findColon, hx]⟩
    · rcases List.mem_cons.mp h with h1 | h2
      · exact absurd h1.symm hx
      · obtain ⟨a, ha⟩ := ih h2
        exact ⟨a, by simp [findColon, hx, ha]⟩

theorem findColon_append (v w a : List Char) (h : findColon v = some a) :
    findColon (v ++ w) = some (a ++ w) := by
  induction v with
  | nil => simp [findColon] at h
  | cons x t ih =>
    by_cases hx : x = ':'
    · simp [findColon, hx] at h ⊢
      rw [← h]
    · simp [findColon, hx] at h ⊢
      exact ih h

theorem isPrefixOf_append_of_nonprefixed (key : List Char) :
    ∀ (l u : List Char), ¬ l <+: key → key.isPrefixOf (l ++ u) = key.isPrefixOf l := by
  induction key with
  | nil => intro l u _; simp [List.isPrefixOf]
  | cons a k ih =>
    intro l u h
    cases l with
    | nil => exact absurd (List.nil_prefix) h
    | cons b t =>
      simp only [List.cons_append, List.isPrefixOf]
      by_cases hab : a = b
      · subst hab
        rw [show (t.append u) = t ++ u from rfl,
          ih t u (fun hp => h (List.cons_prefix_cons.mpr ⟨rfl, hp⟩))]
      · have : (a == b) = false := beq_eq_false_iff_ne.mpr hab
        rw [this]
        simp

/-- The per-line value of the summary regexes: if the key starts the line,
the trimmed text after the line's first colon past the key. -/
def lineVal (key l : List Char) : Option (List Char) :=
  if key.isPrefixOf l then (findColon (l.drop key.length)).map (fun a => jsTrim (takeLineVal a))
  else none

theorem cleanJoin_cons (p : List Char × Bool) (ls : List (List Char × Bool)) :
    cleanJoin (p :: ls) = p.1 ++ '\r' :: '\n' :: cleanJoin ls := by
  simp [cleanJoin, crlf]

theorem jsGetAux_cleanJoin (key : List Char) (hkey : key ≠ []) (hkcolon : ':' ∉ key) :
    ∀ (ls : List (List Char × Bool)) (l0 : List Char),
      cleanLine l0 → (∀ p ∈ ls, cleanLine p.1 ∧ ':' ∈ p.1) →
      jsGetAux key (l0 ++ '\r' :: '\n' :: cleanJoin ls) =
        ls.findSome? (fun p => lineVal key p.1) := by
  intro ls
  induction ls with
  | nil =>
    intro l0 hc0 _
    have hnil : key.isPrefixOf ([] : List Char) = false := by
      cases key with
      | nil => exact absurd rfl hkey
      | cons a k => rfl
    rw [show cleanJoin [] = [] from rfl,
      jsGet_step_line key l0 [] hc0 hnil]
    rfl
  | cons p rest ih =>
    intro l0 hc0 hall
    obtain ⟨l, b⟩ := p
    have hl := hall (l, b) (by simp)
    have hnotpre : ¬ l <+: key := by
      intro hp
      exact hkcolon (hp.subset hl.2)
    rw [cleanJoin_cons]
    by_cases hpre : key.isPrefixOf l = true
    · obtain ⟨v, rfl⟩ := List.isPrefixOf_iff_prefix.mp hpre
      have hvcolon : ':' ∈ v := by
        rcases List.mem_append.mp hl.2 with h | h
        · exact absurd h hkcolon
        · exact h
      obtain ⟨a, ha⟩ := findColon_of_mem v hvcolon
      have hdoc : findColon (v ++ '\r' :: '\n' :: cleanJoin rest)
          = some (a ++ '\r' :: '\n' :: cleanJoin rest) :=
        findColon_append v _ a ha
      rw [List.append_assoc, jsGet_found_line key l0 _ _ hc0 hdoc]
      have hcap : takeLineVal (a ++ '\r' :: '\n' :: cleanJoin rest) = takeLineVal a := by
        unfold takeLineVal
        exact takeWhile_append_stop _ a '\r' _ (by decide)
      rw [hcap]
      have hlv : lineVal key (key ++ v) = some (jsTrim (takeLineVal a)) := by
        simp [lineVal, isPrefixOf_append_self, List.drop_left, ha]
      simp [List.findSome?_cons, hlv]
    · have hpre2 : key.isPrefixOf ((l ++ '\r' :: '\n' :: cleanJoin rest)) = false := by
        rw [isPrefixOf_append_of_nonprefixed key l _ hnotpre]
        exact Bool.not_eq_true _ ▸ (by simpa using hpre)
      have hstep : jsGetAux key (l0 ++ '\r' :: '\n' :: (l ++ '\r' :: '\n' :: cleanJoin rest))
          = jsGetAux key (l ++ '\r' :: '\n' :: cleanJoin rest) := by
        rw [show l0 ++ '\r' :: '\n' :: (l ++ '\r' :: '\n' :: cleanJoin rest)
            = (l0 ++ ['\r']) ++ '\n' :: (l ++ '\r' :: '\n' :: cleanJoin rest) by simp,
          jsGetAux_skip_seg key (l0 ++ ['\r']) _ (by
            intro c hc
            rcases List.mem_append.mp hc with h1 | h2
            · exact (hc0 c h1).1
            · simp at h2; subst h2; decide),
          jsGetAux_nl_nomatch key _ hpre2]
      rw [hstep, ih l hl.1 (fun q hq => hall q (by simp [hq]))]
      have hlv : lineVal key l = none := by simp [lineVal, hpre]
      simp [List.findSome?_cons, hlv]

theorem lineVal_none_of_head (key l : List Char) (hk : key.isPrefixOf l = false) :
    lineVal key l = none := by
  simp [lineVal, hk]

theorem takeLineVal_all (l : List Char) (h : ∀ c ∈ l, isLineTerm c = false) :
    takeLineVal l = l := by
  unfold takeLineVal
  exact takeWhile_all _ l (fun c hc => by simp [h c hc])

set_option maxHeartbeats 1000000 in
set_option maxRecDepth 8000 in
/-- Claim C2 (amended): parsing the wire text recovers the title and the
generated uid for every event record whose title avoids the iCalendar-escaped
characters (backslash, LF, CR, semicolon, comma) and the LINE/PARAGRAPH
SEPARATOR code points and carries no leading or trailing whitespace
(`jsTrim`-invariant), whose uid is `randomUUID`-shaped, and whose organizer
and attendee emails are CR/LF-free.  Titles of any length round-trip: the
folding at 72 characters is undone exactly by the parser's unfolding. -/
theorem buildIcsEvent_roundtrip (uid : List Char) (now : Int) (input : CreateEventInput)
    (huid : ∀ c ∈ uid, isUuidChar c = true)
    (htitle : ∀ c ∈ input.title, icsSafeChar c = true)
    (htrim : jsTrim input.title = input.title)
    (hemail : ∀ c ∈ input.organizerEmail, c ≠ '\n' ∧ c ≠ '\r')
    (hatt : ∀ a ∈ input.attendees, ∀ c ∈ a.email, c ≠ '\n' ∧ c ≠ '\r') :
    (parseIcsSummary (buildIcsEvent uid now input).ics).title = some input.title ∧
    (parseIcsSummary (buildIcsEvent uid now input).ics).uid = some uid := by
  have hclean := icsLines_clean uid now input huid hemail hatt
  have hunfold : unfoldLines (buildIcsEvent uid now input).ics = cleanJoin (icsLines uid now input) := by
    rw [buildIcsEvent_ics_eq]
    exact unfold_wireJoin _ (fun p hp => (hclean p hp).1) (fun p hp => (hclean p hp).2)
  have hcolon : ∀ p ∈ (icsLines uid now input).tail, cleanLine p.1 ∧ ':' ∈ p.1 := by
    intro p hp
    have hp2 : p ∈ icsLines uid now input := List.mem_of_mem_tail hp
    refine ⟨(hclean p hp2).1, ?_⟩
    simp only [icsLines, List.mem_append, List.mem_cons, List.mem_singleton,
      List.not_mem_nil, or_false, List.mem_map] at hp2
    rcases hp2 with ((((rfl | rfl | rfl | rfl | rfl | rfl | rfl | rfl | rfl | rfl | rfl) | hd) | hl) | ⟨a, ha, rfl⟩) | rfl | rfl
    · decide
    · decide
    · decide
    · decide
    · decide
    · exact List.mem_append.mpr (Or.inl (by decide))
    · exact List.mem_append.mpr (Or.inl (by decide))
    · exact List.mem_append.mpr (Or.inl (by decide))
    · exact List.mem_append.mpr (Or.inl (by decide))
    · exact List.mem_append.mpr (Or.inl (List.mem_append.mpr (Or.inr (by decide))))
    · exact List.mem_append.mpr (Or.inl (by decide))
    · cases hde : input.description with
      | none => rw [hde] at hd; simp at hd
      | some d =>
        rw [hde] at hd; simp at hd; subst hd
        exact List.mem_append.mpr (Or.inl (show ':' ∈ ("DESCRIPTION:".data) by decide))
    · cases hlo : input.location with
      | none => rw [hlo] at hl; simp at hl
      | some l =>
        rw [hlo] at hl; simp at hl; subst hl
        exact List.mem_append.mpr (Or.inl (show ':' ∈ ("LOCATION:".data) by decide))
    · exact List.mem_append.mpr (Or.inl (List.mem_append.mpr (Or.inr (by decide))))
    · decide
    · decide
  have hmaster : ∀ key : List Char, key ≠ [] → ':' ∉ key →
      jsGet key (unfoldLines (buildIcsEvent uid now input).ics)
        = (icsLines uid now input).tail.findSome? (fun p => lineVal key p.1) := by
    intro key hk1 hk2
    rw [hunfold]
    rw [show icsLines uid now input
        = ("BEGIN:VCALENDAR".data, false) :: (icsLines uid now input).tail from rfl,
      cleanJoin_cons]
    exact jsGetAux_cleanJoin key hk1 hk2 _ _ (all_ne_crlf _ (by decide)) hcolon
  have htail : (icsLines uid now input).tail
      = [("VERSION:2.0".data, false), ("PRODID:-//fastmail-mcp//EN".data, false),
         ("CALSCALE:GREGORIAN".data, false), ("BEGIN:VEVENT".data, false),
         ("UID:".data ++ uid, false), ("DTSTAMP:".data ++ toIcsDateTime now, false),
         ("DTSTART:".data ++ toIcsDateTime input.start, false),
         ("DTEND:".data ++ toIcsDateTime input.endTime, false),
         ("ORGANIZER".data ++ cnParam input.organizerName ++ ":mailto:".data ++ input.organizerEmail, true),
         ("SUMMARY:".data ++ escText input.title, true)]
        ++ ((match input.description with
            | some d => [("DESCRIPTION:".data ++ escText d, true)]
            | none => [])
        ++ ((match input.location with
            | some l => [("LOCATION:".data ++ escText l, true)]
            | none => [])
        ++ (input.attendees.map (fun a =>
            ("ATTENDEE".data ++ cnParam a.name ++ ":mailto:".data ++ a.email, true))
        ++ [("END:VEVENT".data, false), ("END:VCALENDAR".data, false)]))) := by
    simp [icsLines, List.append_assoc]
  constructor
  · show jsGet ("SUMMARY".data) (unfoldLines (buildIcsEvent uid now input).ics) = _
    rw [hmaster ("SUMMARY".data) (by decide) (by decide), htail]
    have huidline : lineVal ['S','U','M','M','A','R','Y'] ('U' :: 'I' :: 'D' :: ':' :: uid) = none :=
      lineVal_none_of_head _ _ (isPrefixOf_ne_head 'S' 'U' _ _ (by decide))
    have hstampline : lineVal ['S','U','M','M','A','R','Y']
        ('D' :: 'T' :: 'S' :: 'T' :: 'A' :: 'M' :: 'P' :: ':' :: toIcsDateTime now) = none :=
      lineVal_none_of_head _ _ (isPrefixOf_ne_head 'S' 'D' _ _ (by decide))
    have hstartline : lineVal ['S','U','M','M','A','R','Y']
        ('D' :: 'T' :: 'S' :: 'T' :: 'A' :: 'R' :: 'T' :: ':' :: toIcsDateTime input.start) = none :=
      lineVal_none_of_head _ _ (isPrefixOf_ne_head 'S' 'D' _ _ (by decide))
    have hendline : lineVal ['S','U','M','M','A','R','Y']
        ('D' :: 'T' :: 'E' :: 'N' :: 'D' :: ':' :: toIcsDateTime input.endTime) = none :=
      lineVal_none_of_head _ _ (isPrefixOf_ne_head 'S' 'D' _ _ (by decide))
    have horgline : ∀ z : List Char, lineVal ['S','U','M','M','A','R','Y']
        ('O' :: 'R' :: 'G' :: 'A' :: 'N' :: 'I' :: 'Z' :: 'E' :: 'R' :: z) = none := fun z =>
      lineVal_none_of_head _ _ (isPrefixOf_ne_head 'S' 'O' _ _ (by decide))
    have hsumline : lineVal ['S','U','M','M','A','R','Y']
        ('S' :: 'U' :: 'M' :: 'M' :: 'A' :: 'R' :: 'Y' :: ':' :: escText input.title)
        = some input.title := by
      rw [show ('S' :: 'U' :: 'M' :: 'M' :: 'A' :: 'R' :: 'Y' :: ':' :: escText input.title)
          = ['S','U','M','M','A','R','Y'] ++ (':' :: escText input.title) from rfl]
      simp only [lineVal, isPrefixOf_append_self, if_true, List.drop_left]
      rw [show findColon (':' :: escText input.title) = some (escText input.title) from by
        simp [findColon]]
      rw [escText_id input.title htitle]
      simp only [Option.map_some']
      rw [takeLineVal_all input.title (fun c hc => (icsSafe_props c (htitle c hc)).2.2.2.2.2), htrim]
    simp only [show ("SUMMARY".data) = ['S','U','M','M','A','R','Y'] from rfl,
      List.cons_append, List.nil_append, List.append_assoc]
    simp only [List.findSome?_cons, huidline, hstampline, hstartline, hendline, horgline, hsumline,
      show lineVal ['S','U','M','M','A','R','Y'] ['V','E','R','S','I','O','N',':','2','.','0'] = none from by decide,
      show lineVal ['S','U','M','M','A','R','Y'] ("PRODID:-//fastmail-mcp//EN".data) = none from by decide,
      show lineVal ['S','U','M','M','A','R','Y'] ("CALSCALE:GREGORIAN".data) = none from by decide,
      show lineVal ['S','U','M','M','A','R','Y'] ("BEGIN:VEVENT".data) = none from by decide]
  · show jsGet ("UID".data) (unfoldLines (buildIcsEvent uid now input).ics) = _
    rw [hmaster ("UID".data) (by decide) (by decide), htail]
    have huidline : lineVal ['U','I','D'] ('U' :: 'I' :: 'D' :: ':' :: uid) = some uid := by
      rw [show ('U' :: 'I' :: 'D' :: ':' :: uid) = ['U','I','D'] ++ (':' :: uid) from rfl]
      simp only [lineVal, isPrefixOf_append_self, if_true, List.drop_left]
      rw [show findColon (':' :: uid) = some uid from by simp [findColon]]
      simp only [Option.map_some']
      rw [takeLineVal_all uid (fun c hc => (isUuidChar_props c (huid c hc)).2.1),
        jsTrim_eq_self uid (fun c hc => (isUuidChar_props c (huid c hc)).2.2)]
    simp only [show ("UID".data) = ['U','I','D'] from rfl,
      List.cons_append, List.nil_append, List.append_assoc]
    simp only [List.findSome?_cons, huidline,
      show lineVal ['U','I','D'] ['V','E','R','S','I','O','N',':','2','.','0'] = none from by decide,
      show lineVal ['U','I','D'] ("PRODID:-//fastmail-mcp//EN".data) = none from by decide,
      show lineVal ['U','I','D'] ("CALSCALE:GREGORIAN".data) = none from by decide,
      show lineVal ['U','I','D'] ("BEGIN:VEVENT".data) = none from by decide]

/-- A fixed UUID-shaped identifier for concrete evaluations. -/
def uuidZero : List Char := "00000000-0000-4000-8000-000000000000".data

/-- A concrete event record whose title contains a comma. -/
def evComma : CreateEventInput :=
  { title := "a,b".data, start := 0, endTime := 0, description := none, location := none,
    organizerEmail := "o@example.com".data, organizerName := none, attendees := [] }

set_option maxRecDepth 10000 in
/-- Claim C2 counterexample: with the comma title `a,b`, the builder escapes
the comma and the parser does not unescape, so the parsed title is the
escaped text `a\,b`, not the original title — the claim fails as stated for
unrestricted title characters. -/
theorem buildIcsEvent_roundtrip_counterexample :
    (parseIcsSummary (buildIcsEvent uuidZero 0 evComma).ics).title = some ("a\\,b".data) ∧
    some ("a\\,b".data) ≠ some (evComma.title) := by
  exact ⟨by decide, by decide⟩

/-- A concrete safe event record. -/
def evSync : CreateEventInput :=
  { title := "Team sync".data, start := 1767225600, endTime := 1767229200,
    description := none, location := none,
    organizerEmail := "o@example.com".data, organizerName := none, attendees := [] }

set_option maxRecDepth 10000 in
/-- Witness for C2 (amended) at a concrete record. -/
theorem buildIcsEvent_roundtrip_witness :
    (parseIcsSummary (buildIcsEvent uuidZero 0 evSync).ics).title = some (evSync.title) ∧
    (parseIcsSummary (buildIcsEvent uuidZero 0 evSync).ics).uid = some uuidZero :=
  buildIcsEvent_roundtrip uuidZero 0 evSync (by decide) (by decide) (by decide)
    (by decide) (by decide)

/-! ## vCard codec (`src/dav/vcard.ts`) -/

/-- `esc` in `src/dav/vcard.ts:10` is character-for-character the same five
replaces as `escText`; we reuse the one definition. -/
def vcardEsc (v : List Char) : List Char := escText v

/-- Fuel-indexed body of the JavaScript `fullName.trim().split(/\s+/)`
tokenizer; the fuel only bounds the loop count and `jsSplitWs` always
supplies enough. -/
def jsSplitWsAux : Nat → List Char → List Char → List (List Char)
  | 0, cur, _ => [cur.reverse]
  | fuel + 1, cur, s =>
    match s with
    | [] => [cur.reverse]
    | c :: rest =>
      if isJsWs c then cur.reverse :: jsSplitWsAux fuel [] (rest.dropWhile isJsWs)
      else jsSplitWsAux fuel (c :: cur) rest

/-- JavaScript `s.split(/\s+/)`: split at maximal whitespace runs, with an
empty leading (trailing) element when the string starts (ends) with
whitespace, and `[""]` for the empty string. -/
def jsSplitWs (s : List Char) : List (List Char) := jsSplitWsAux s.length [] s

/-- The `parts` list of `buildVCard` (`src/dav/vcard.ts:27`):
`input.fullName.trim().split(/\s+/)`. -/
def vcardParts (fullName : List Char) : List (List Char) := jsSplitWs (jsTrim fullName)

/-- The family component of the structured N field
(`parts.length > 1 ? parts[parts.length - 1] : parts[0] || ''`). -/
def vcardFamily (fullName : List Char) : List Char :=
  let parts := vcardParts fullName
  if 1 < parts.length then (parts.getLast?).getD [] else (parts.head?).getD []

/-- The given component of the structured N field
(`parts.length > 1 ? parts.slice(0, -1).join(' ') : ''`). -/
def vcardGiven (fullName : List Char) : List Char :=
  let parts := vcardParts fullName
  if 1 < parts.length then List.intercalate [' '] parts.dropLast else []

/-- `CreateContactInput` (`src/dav/vcard.ts:3`); the optional arrays are
plain lists (`input.emails || []` in the source). -/
structure CreateContactInput where
  fullName : List Char
  emails : List (List Char)
  phones : List (List Char)
  note : Option (List Char)
deriving DecidableEq

/-- Result record of `buildVCard`. -/
structure BuiltVCard where
  uid : List Char
  vcard : List Char
  filename : List Char
deriving DecidableEq

/-- `buildVCard` (`src/dav/vcard.ts:19`); the generated `randomUUID` is an
explicit parameter. -/
def buildVCard (uid : List Char) (input : CreateContactInput) : BuiltVCard :=
  let lines : List (List Char) :=
    [ "BEGIN:VCARD".data, "VERSION:3.0".data,
      "UID:".data ++ uid, "FN:".data ++ vcardEsc input.fullName,
      "N:".data ++ vcardEsc (vcardFamily input.fullName) ++ ';' ::
        (vcardEsc (vcardGiven input.fullName) ++ ";;;".data) ]
    ++ input.emails.map (fun e => "EMAIL;TYPE=INTERNET:".data ++ vcardEsc e)
    ++ input.phones.map (fun t => "TEL;TYPE=CELL:".data ++ vcardEsc t)
    ++ (match input.note with
        | some n => ["NOTE:".data ++ vcardEsc n]
        | none => [])
    ++ ["END:VCARD".data]
  { uid := uid, vcard := List.intercalate crlf lines ++ crlf, filename := uid ++ ".vcf".data }

/-- Fuel-indexed body of the global `getAll` scan of `parseVCardSummary`;
the fuel only bounds the loop count and `getAll` always supplies enough. -/
def getAllAux (key : List Char) : Nat → List Char → List (List Char)
  | 0, _ => []
  | fuel + 1, s =>
    match s with
    | [] => []
    | c :: rest =>
      if c = '\n' then
        if key.isPrefixOf rest then
          match findColon (rest.drop key.length) with
          | some after =>
            jsTrim (takeLineVal after) :: getAllAux key fuel (after.drop (takeLineVal after).length)
          | none => getAllAux key fuel rest
        else getAllAux key fuel rest
      else getAllAux key fuel rest

/-- The `getAll` helper of `parseVCardSummary`: every match of
`new RegExp(`\n` + key + `[^:]*:(.*)`, `g`)` in scan order, each capture
trimmed, the scan resuming after each capture. -/
def getAll (key s : List Char) : List (List Char) := getAllAux key s.length s

/-- The summary record returned by `parseVCardSummary`. -/
structure VCardSummary where
  uid : Option (List Char)
  fullName : Option (List Char)
  emails : List (List Char)
  phones : List (List Char)
deriving DecidableEq

/-- `parseVCardSummary` (`src/dav/vcard.ts:44`): unfold continuations, first
match for UID and FN, all matches for EMAIL and TEL. -/
def parseVCardSummary (vcard : List Char) : VCardSummary :=
  let unfolded := unfoldLines vcard
  { uid := jsGet ("UID".data) unfolded
    fullName := jsGet ("FN".data) unfolded
    emails := getAll ("EMAIL".data) unfolded
    phones := getAll ("TEL".data) unfolded }

/-- Fuel-indexed whitespace tokenizer (spec side). -/
def wsTokensAux : Nat → List Char → List (List Char)
  | 0, _ => []
  | fuel + 1, s =>
    match s with
    | [] => []
    | c :: rest =>
      if isJsWs c then wsTokensAux fuel rest
      else (c :: rest.takeWhile (fun x => !isJsWs x)) :: wsTokensAux fuel (rest.dropWhile (fun x => !isJsWs x))

/-- The maximal whitespace-free tokens of a string, in order: the
specification-side notion of splitting a name on whitespace. -/
def wsTokens (s : List Char) : List (List Char) := wsTokensAux s.length s

theorem wsTokensAux_congr (f1 : Nat) :
    ∀ (f2 : Nat) (s : List Char), s.length ≤ f1 → s.length ≤ f2 →
      wsTokensAux f1 s = wsTokensAux f2 s := by
  induction f1 with
  | zero =>
    intro f2 s h1 _
    have : s = [] := List.eq_nil_of_length_eq_zero (Nat.le_zero.mp h1)
    subst this
    cases f2 <;> simp [wsTokensAux]
  | succ f ih =>
    intro f2 s h1 h2
    cases f2 with
    | zero =>
      have : s = [] := List.eq_nil_of_length_eq_zero (Nat.le_zero.mp h2)
      subst this
      simp [wsTokensAux]
    | succ g =>
      cases s with
      | nil => simp [wsTokensAux]
      | cons c rest =>
        have hdw : (rest.dropWhile (fun x => !isJsWs x)).length ≤ rest.length :=
          (List.dropWhile_sublist _).length_le
        simp only [wsTokensAux]
        cases hc : isJsWs c
        · simp only [hc, Bool.false_eq_true, if_false]
          rw [ih g (rest.dropWhile (fun x => !isJsWs x)) (by simp at h1; omega) (by simp at h2; omega)]
        · simp only [hc, if_true]
          exact ih g rest (by simp at h1; omega) (by simp at h2; omega)

theorem wsTokens_cons_ws (c : Char) (rest : List Char) (h : isJsWs c = true) :
    wsTokens (c :: rest) = wsTokens rest := by
  unfold wsTokens
  simp only [List.length_cons, wsTokensAux, h, if_true]

theorem wsTokens_cons_nws (c : Char) (rest : List Char) (h : isJsWs c = false) :
    wsTokens (c :: rest)
      = (c :: rest.takeWhile (fun x => !isJsWs x)) :: wsTokens (rest.dropWhile (fun x => !isJsWs x)) := by
  unfold wsTokens
  simp only [List.length_cons, wsTokensAux, h, Bool.false_eq_true, if_false]
  rw [wsTokensAux_congr rest.length (rest.dropWhile (fun x => !isJsWs x)).length
    (rest.dropWhile (fun x => !isJsWs x)) (List.dropWhile_sublist _).length_le le_rfl]

theorem wsTokens_all_ws (w : List Char) (h : ∀ c ∈ w, isJsWs c = true) : wsTokens w = [] := by
  induction w with
  | nil => rfl
  | cons c rest ih =>
    rw [wsTokens_cons_ws c rest (h c (by simp))]
    exact ih (fun x hx => h x (by simp [hx]))

theorem wsTokens_dropWhile_ws (s : List Char) :
    wsTokens (s.dropWhile isJsWs) = wsTokens s := by
  induction s with
  | nil => rfl
  | cons c rest ih =>
    by_cases hc : isJsWs c
    · rw [List.dropWhile_cons_of_pos hc, ih, wsTokens_cons_ws c rest hc]
    · rw [List.dropWhile_cons_of_neg hc]

theorem takeWhile_nil_of_all_neg (p : Char → Bool) (w : List Char)
    (h : ∀ c ∈ w, p c = false) : w.takeWhile p = [] := by
  cases w with
  | nil => rfl
  | cons c rest => simp [List.takeWhile_cons, h c (by simp)]

theorem dropWhile_self_of_all_neg (p : Char → Bool) (w : List Char)
    (h : ∀ c ∈ w, p c = false) : w.dropWhile p = w := by
  cases w with
  | nil => rfl
  | cons c rest => simp [List.dropWhile_cons, h c (by simp)]

theorem wsTokens_append_ws (n : Nat) :
    ∀ (s w : List Char), s.length ≤ n → (∀ c ∈ w, isJsWs c = true) →
      wsTokens (s ++ w) = wsTokens s := by
  induction n with
  | zero =>
    intro s w h1 hw
    have : s = [] := List.eq_nil_of_length_eq_zero (Nat.le_zero.mp h1)
    subst this
    simpa using wsTokens_all_ws w hw
  | succ n ih =>
    intro s w h1 hw
    cases s with
    | nil => simpa using wsTokens_all_ws w hw
    | cons c rest =>
      by_cases hc : isJsWs c
      · rw [List.cons_append, wsTokens_cons_ws c _ hc, wsTokens_cons_ws c rest hc]
        exact ih rest w (by simp at h1; omega) hw
      · have hcf : isJsWs c = false := by simpa using hc
        rw [List.cons_append, wsTokens_cons_nws c _ hcf, wsTokens_cons_nws c rest hcf]
        by_cases hall : ∀ x ∈ rest, (fun x => !isJsWs x) x = true
        · have htk : rest.takeWhile (fun x => !isJsWs x) = rest :=
            List.takeWhile_eq_self_iff.mpr hall
          have htkw : (rest ++ w).takeWhile (fun x => !isJsWs x) = rest := by
            rw [List.takeWhile_append_of_pos hall,
              takeWhile_nil_of_all_neg _ w (fun c hc2 => by simp [hw c hc2]), List.append_nil]
          have hdw : rest.dropWhile (fun x => !isJsWs x) = [] :=
            List.dropWhile_eq_nil_iff.mpr (fun x hx => hall x hx)
          have hdww : (rest ++ w).dropWhile (fun x => !isJsWs x) = w := by
            rw [List.dropWhile_append_of_pos hall,
              dropWhile_self_of_all_neg _ w (fun c hc2 => by simp [hw c hc2])]
          rw [htk, htkw, hdw, hdww, wsTokens_all_ws w hw]
          rfl
        · push_neg at hall
          obtain ⟨x, hx, hxw⟩ := hall
          have hxw2 : isJsWs x = true := by simpa using hxw
          have htkw : (rest ++ w).takeWhile (fun x => !isJsWs x)
              = rest.takeWhile (fun x => !isJsWs x) := by
            rw [List.takeWhile_append]
            split
            · next heq =>
              exfalso
              have hself := List.takeWhile_eq_self_iff.mp
                ((List.takeWhile_sublist _).eq_of_length heq)
              have := hself x hx
              simp [hxw2] at this
            · rfl
          have hne : rest.dropWhile (fun x => !isJsWs x) ≠ [] := by
            intro hnil
            have := List.dropWhile_eq_nil_iff.mp hnil x hx
            simp [hxw2] at this
          have hdww : (rest ++ w).dropWhile (fun x => !isJsWs x)
              = rest.dropWhile (fun x => !isJsWs x) ++ w := by
            rw [List.dropWhile_append]
            simp [List.isEmpty_iff, hne]
          rw [htkw, hdww,
            ih (rest.dropWhile (fun x => !isJsWs x)) w
              (by have := (List.dropWhile_sublist (fun x => !isJsWs x) (l := rest)).length_le; simp at h1; omega) hw]

theorem dropWhile_head_neg (p : Char → Bool) (s : List Char) (c : Char) (t : List Char)
    (h : s.dropWhile p = c :: t) : p c = false := by
  induction s with
  | nil => simp [List.dropWhile] at h
  | cons a rest ih =>
    by_cases ha : p a
    · rw [List.dropWhile_cons_of_pos ha] at h
      exact ih h
    · rw [List.dropWhile_cons_of_neg ha] at h
      injection h with h1 h2
      subst h1
      simpa using ha

/-- A string with no trailing whitespace. -/
def noTrailWs (s : List Char) : Prop := ∀ c, s.getLast? = some c → isJsWs c = false

theorem noTrailWs_tail (c : Char) (rest : List Char) (h : noTrailWs (c :: rest)) :
    noTrailWs rest := by
  intro x hx
  cases rest with
  | nil => simp at hx
  | cons b t => exact h x (by rw [List.getLast?_cons_cons]; exact hx)

theorem noTrailWs_suffix_dropWhile (p : Char → Bool) (s : List Char) (h : noTrailWs s) :
    noTrailWs (s.dropWhile p) := by
  intro x hx
  obtain ⟨pre, hpre⟩ : ∃ pre, pre ++ s.dropWhile p = s := ⟨s.takeWhile p, List.takeWhile_append_dropWhile p s⟩
  refine h x ?_
  rw [← hpre, List.getLast?_append, hx]
  rfl

theorem jsSplitWsAux_spec (n : Nat) :
    ∀ (s : List Char) (acc : List Char) (fuel : Nat), s.length ≤ n → s.length ≤ fuel →
      noTrailWs s →
      jsSplitWsAux fuel acc s
        = (acc.reverse ++ s.takeWhile (fun x => !isJsWs x))
            :: wsTokens (s.dropWhile (fun x => !isJsWs x)) := by
  induction n with
  | zero =>
    intro s acc fuel h1 _ _
    have : s = [] := List.eq_nil_of_length_eq_zero (Nat.le_zero.mp h1)
    subst this
    cases fuel <;> simp [jsSplitWsAux, wsTokens, wsTokensAux]
  | succ n ih =>
    intro s acc fuel h1 h2 htr
    cases s with
    | nil => cases fuel <;> simp [jsSplitWsAux, wsTokens, wsTokensAux]
    | cons c rest =>
      obtain ⟨g, rfl⟩ : ∃ g, fuel = g + 1 := by
        cases fuel with
        | zero => simp at h2
        | succ g => exact ⟨g, rfl⟩
      cases hc : isJsWs c
      · have hrec := ih rest (c :: acc) g (by simp at h1; omega) (by simp at h2; omega)
          (noTrailWs_tail c rest htr)
        simp only [jsSplitWsAux, hc, Bool.false_eq_true, if_false, hrec]
        simp [List.takeWhile_cons, List.dropWhile_cons, hc]
      · set d := rest.dropWhile isJsWs with hd
        have hdne : d ≠ [] := by
          intro hnil
          have hall : ∀ x ∈ rest, isJsWs x = true :=
            fun x hx => List.dropWhile_eq_nil_iff.mp hnil x hx
          cases hgl : rest.getLast? with
          | none =>
            have hrnil : rest = [] := List.getLast?_eq_none_iff.mp hgl
            subst hrnil
            have h2 := htr c (by simp)
            rw [hc] at h2
            simp at h2
          | some x =>
            have hxmem : x ∈ rest := List.mem_of_getLast?_eq_some hgl
            have hxws := hall x hxmem
            have h2 := htr x (by
              cases rest with
              | nil => simp at hgl
              | cons b t => rw [List.getLast?_cons_cons]; exact hgl)
            rw [hxws] at h2
            simp at h2
        obtain ⟨c2, t2, hdc⟩ := List.exists_cons_of_ne_nil hdne
        have hc2 : isJsWs c2 = false := dropWhile_head_neg isJsWs rest c2 t2 (hd ▸ hdc)
        have hdlen : d.length ≤ rest.length := (List.dropWhile_sublist _).length_le
        have hdtr : noTrailWs d := noTrailWs_suffix_dropWhile isJsWs rest (noTrailWs_tail c rest htr)
        have hrec := ih d [] g (by simp at h1; omega) (by simp at h2; omega) hdtr
        simp only [jsSplitWsAux, hc, if_true, hrec]
        have hwtd : wsTokens (c :: rest) = wsTokens d := by
          rw [wsTokens_cons_ws c rest hc, ← wsTokens_dropWhile_ws rest]
        have hwd : wsTokens d
            = (d.takeWhile (fun x => !isJsWs x)) :: wsTokens (d.dropWhile (fun x => !isJsWs x)) := by
          rw [hdc, wsTokens_cons_nws c2 t2 hc2]
          simp [List.takeWhile_cons, List.dropWhile_cons, hc2]
        have htk : (c :: rest).takeWhile (fun x => !isJsWs x) = [] := by
          simp [List.takeWhile_cons, hc]
        have hdw : (c :: rest).dropWhile (fun x => !isJsWs x) = c :: rest := by
          simp [List.dropWhile_cons, hc]
        rw [htk, hdw, hwtd, hwd]
        simp

theorem jsSplitWs_eq_wsTokens (t : List Char) (hne : t ≠ [])
    (hhead : ∀ c r, t = c :: r → isJsWs c = false) (htrail : noTrailWs t) :
    jsSplitWs t = wsTokens t := by
  obtain ⟨c, r, rfl⟩ := List.exists_cons_of_ne_nil hne
  have hc := hhead c r rfl
  rw [show jsSplitWs (c :: r) = jsSplitWsAux (c :: r).length [] (c :: r) from rfl,
    jsSplitWsAux_spec (c :: r).length (c :: r) [] (c :: r).length le_rfl le_rfl htrail]
  rw [wsTokens_cons_nws c r hc]
  simp [List.takeWhile_cons, List.dropWhile_cons, hc]

theorem jsTrim_decomp (s : List Char) :
    ∃ w, jsTrim s ++ w = s.dropWhile isJsWs ∧ (∀ c ∈ w, isJsWs c = true) := by
  refine ⟨(((s.dropWhile isJsWs).reverse.takeWhile isJsWs)).reverse, ?_, ?_⟩
  · unfold jsTrim
    rw [← List.reverse_append, List.takeWhile_append_dropWhile, List.reverse_reverse]
  · intro c hc
    rw [List.mem_reverse] at hc
    exact List.mem_takeWhile_imp hc

theorem jsTrim_ne_nil (s : List Char) (h : ∃ c ∈ s, isJsWs c = false) : jsTrim s ≠ [] := by
  obtain ⟨c0, hc0, hws0⟩ := h
  have hu : s.dropWhile isJsWs ≠ [] := by
    intro hnil
    have := List.dropWhile_eq_nil_iff.mp hnil c0 hc0
    rw [hws0] at this
    simp at this
  obtain ⟨c, t, hct⟩ := List.exists_cons_of_ne_nil hu
  have hc : isJsWs c = false := dropWhile_head_neg isJsWs s c t hct
  intro htrimnil
  unfold jsTrim at htrimnil
  have h2 : (s.dropWhile isJsWs).reverse.dropWhile isJsWs = [] := by
    have := congrArg List.reverse htrimnil
    simpa using this
  have h3 := List.dropWhile_eq_nil_iff.mp h2 c (by rw [hct]; simp)
  rw [hc] at h3
  simp at h3

theorem jsTrim_head_not_ws (s : List Char) (c : Char) (r : List Char)
    (h : jsTrim s = c :: r) : isJsWs c = false := by
  obtain ⟨w, hw, _⟩ := jsTrim_decomp s
  rw [h] at hw
  exact dropWhile_head_neg isJsWs s c (r ++ w) (by rw [← hw]; simp)

theorem jsTrim_noTrailWs (s : List Char) : noTrailWs (jsTrim s) := by
  intro x hx
  unfold jsTrim at hx
  rw [List.getLast?_reverse] at hx
  cases hdw : (s.dropWhile isJsWs).reverse.dropWhile isJsWs with
  | nil => rw [hdw] at hx; simp at hx
  | cons b t =>
    rw [hdw] at hx
    have hb : isJsWs b = false := dropWhile_head_neg isJsWs _ b t hdw
    simp only [List.head?_cons, Option.some.injEq] at hx
    rw [← hx]
    exact hb

theorem wsTokens_jsTrim (s : List Char) : wsTokens (jsTrim s) = wsTokens s := by
  obtain ⟨w, hw, hws⟩ := jsTrim_decomp s
  have h1 : wsTokens (jsTrim s ++ w) = wsTokens (jsTrim s) :=
    wsTokens_append_ws (jsTrim s).length (jsTrim s) w le_rfl hws
  rw [hw] at h1
  rw [← h1, wsTokens_dropWhile_ws]

theorem vcardParts_eq_wsTokens (fullName : List Char)
    (h : ∃ c ∈ fullName, isJsWs c = false) :
    vcardParts fullName = wsTokens fullName := by
  unfold vcardParts
  rw [jsSplitWs_eq_wsTokens (jsTrim fullName) (jsTrim_ne_nil fullName h)
    (fun c r hcr => jsTrim_head_not_ws fullName c r hcr) (jsTrim_noTrailWs fullName),
    wsTokens_jsTrim]

/-- Claim C8: the structured N field of `buildVCard` is derived from the
full name by whitespace splitting — with two or more tokens the last token
becomes the family-name component and the remaining tokens joined by single
spaces become the given-name component; with a single token that token
becomes the family-name component and the given-name component is empty.
Stated for every full name containing at least one non-whitespace character
(so that there is at least one token), against the independent tokenizer
`wsTokens`. -/
theorem buildVCard_name_split (fullName : List Char)
    (h : ∃ c ∈ fullName, isJsWs c = false) :
    (2 ≤ (wsTokens fullName).length →
      vcardFamily fullName = ((wsTokens fullName).getLast?).getD [] ∧
      vcardGiven fullName = List.intercalate [' '] (wsTokens fullName).dropLast) ∧
    ((wsTokens fullName).length = 1 →
      vcardFamily fullName = ((wsTokens fullName).head?).getD [] ∧
      vcardGiven fullName = []) := by
  have hp := vcardParts_eq_wsTokens fullName h
  constructor
  · intro hlen
    unfold vcardFamily vcardGiven
    rw [hp, if_pos (by omega), if_pos (by omega)]
    exact ⟨rfl, rfl⟩
  · intro hlen
    unfold vcardFamily vcardGiven
    rw [hp]
    simp only [hlen]
    norm_num

set_option maxRecDepth 20000 in
/-- Witness for C8 at the two-token name Ada Lovelace. -/
theorem buildVCard_name_split_witness :
    vcardFamily ("Ada Lovelace".data) = "Lovelace".data ∧
    vcardGiven ("Ada Lovelace".data) = "Ada".data := by
  have h := (buildVCard_name_split ("Ada Lovelace".data) ⟨'A', by decide, by decide⟩).1 (by decide)
  refine ⟨?_, ?_⟩
  · rw [h.1]; decide
  · rw [h.2]; decide

theorem findColon_length (v : List Char) :
    ∀ a, findColon v = some a → a.length < v.length := by
  induction v with
  | nil => intro a h; simp [findColon] at h
  | cons x t ih =>
    intro a h
    by_cases hx : x = ':'
    · simp [findColon, hx] at h
      subst h
      simp
    · simp only [findColon, hx, if_false] at h
      have := ih a h
      simp
      omega

theorem getAllAux_congr (key : List Char) (f1 : Nat) :
    ∀ (f2 : Nat) (s : List Char), s.length ≤ f1 → s.length ≤ f2 →
      getAllAux key f1 s = getAllAux key f2 s := by
  induction f1 with
  | zero =>
    intro f2 s h1 _
    have : s = [] := List.eq_nil_of_length_eq_zero (Nat.le_zero.mp h1)
    subst this
    cases f2 <;> simp [getAllAux]
  | succ f ih =>
    intro f2 s h1 h2
    cases f2 with
    | zero =>
      have : s = [] := List.eq_nil_of_length_eq_zero (Nat.le_zero.mp h2)
      subst this
      simp [getAllAux]
    | succ g =>
      cases s with
      | nil => simp [getAllAux]
      | cons c rest =>
        simp only [getAllAux]
        by_cases hn : c = '\n'
        · simp only [hn, if_true, if_pos rfl]
          by_cases hp : key.isPrefixOf rest
          · simp only [hp, if_true]
            cases hfc : findColon (rest.drop key.length) with
            | none =>
              simp only [hfc]
              exact ih g rest (by simp at h1; omega) (by simp at h2; omega)
            | some after =>
              simp only [hfc]
              have hafter : after.length < rest.length := by
                have h4 := findColon_length (rest.drop key.length) after hfc
                have h5 : (rest.drop key.length).length ≤ rest.length := by simp
                omega
              have hdrop : (after.drop (takeLineVal after).length).length ≤ after.length := by simp
              rw [ih g (after.drop (takeLineVal after).length)
                (by simp at h1; omega) (by simp at h2; omega)]
          · simp only [hp, if_false]
            exact ih g rest (by simp at h1; omega) (by simp at h2; omega)
        · simp only [hn, if_false]
          exact ih g rest (by simp at h1; omega) (by simp at h2; omega)

theorem getAll_skip_seg (key l s : List Char) (h : ∀ c ∈ l, c ≠ '\n') :
    getAll key (l ++ s) = getAll key s := by
  induction l with
  | nil => rfl
  | cons a t ih =>
    have ha : a ≠ '\n' := h a (by simp)
    have hstep : getAll key (a :: (t ++ s)) = getAll key (t ++ s) := by
      show getAllAux key ((a :: (t ++ s)).length) (a :: (t ++ s)) = _
      rw [show (a :: (t ++ s)).length = (t ++ s).length + 1 from rfl]
      simp only [getAllAux, ha, if_false]
      rfl
    rw [List.cons_append, hstep, ih (fun c hc => h c (by simp [hc]))]

theorem getAll_nl_nomatch (key s : List Char) (h : key.isPrefixOf s = false) :
    getAll key ('\n' :: s) = getAll key s := by
  show getAllAux key (s.length + 1) ('\n' :: s) = _
  simp only [getAllAux, if_pos rfl, if_true, h, Bool.false_eq_true, if_false]
  rfl

theorem getAll_nl_match (key u after : List Char) (h : findColon u = some after) :
    getAll key ('\n' :: (key ++ u))
      = jsTrim (takeLineVal after) :: getAll key (after.drop (takeLineVal after).length) := by
  show getAllAux key ((key ++ u).length + 1) ('\n' :: (key ++ u)) = _
  simp only [getAllAux, if_pos rfl, if_true, isPrefixOf_append_self, List.drop_left, h]
  rw [getAllAux_congr key (key ++ u).length (after.drop (takeLineVal after).length).length
    (after.drop (takeLineVal after).length)
    (by
      have h4 := findColon_length u after h
      have h5 : (after.drop (takeLineVal after).length).length ≤ after.length := by simp
      simp
      omega)
    le_rfl]
  rfl

theorem findColon_subset (v : List Char) : ∀ a, findColon v = some a → ∀ c ∈ a, c ∈ v := by
  induction v with
  | nil => intro a h; simp [findColon] at h
  | cons x t ih =>
    intro a h c hc
    by_cases hx : x = ':'
    · simp [findColon, hx] at h
      subst h
      simp [hc]
    · simp only [findColon, hx, if_false] at h
      exact List.mem_cons.mpr (Or.inr (ih a h c hc))

/-- A line free of every JavaScript line terminator. -/
def termFree (l : List Char) : Bool := l.all (fun c => !isLineTerm c)

theorem termFree_mem (l : List Char) (h : termFree l = true) :
    ∀ c ∈ l, isLineTerm c = false := by
  intro c hc
  have := List.all_eq_true.mp h c hc
  simpa using this

theorem termFree_clean (l : List Char) (h : termFree l = true) : cleanLine l := by
  intro c hc
  have h2 := termFree_mem l h c hc
  constructor <;> rintro rfl <;> revert h2 <;> decide

theorem getAll_lines (key : List Char) (hkey : key ≠ []) (hkc : ':' ∉ key) :
    ∀ (ls : List (List Char)),
      (∀ l ∈ ls, termFree l = true ∧ ':' ∈ l) →
      getAll key ('\r' :: '\n' :: (ls.map (· ++ crlf)).flatten)
        = ls.filterMap (fun l => lineVal key l) := by
  intro ls
  induction ls with
  | nil =>
    intro _
    have hnil : key.isPrefixOf ([] : List Char) = false := by
      cases key with
      | nil => exact absurd rfl hkey
      | cons a k => rfl
    have h1 : getAll key ('\r' :: '\n' :: []) = getAll key ('\n' :: []) :=
      getAll_skip_seg key ['\r'] ('\n' :: []) (by intro c hc; simp at hc; subst hc; decide)
    simp only [List.map_nil, List.flatten_nil]
    rw [h1, getAll_nl_nomatch key [] hnil]
    rfl
  | cons l rest ih =>
    intro hall
    have hl := hall l (by simp)
    have hlc : cleanLine l := termFree_clean l hl.1
    have hflat : ((l :: rest).map (· ++ crlf)).flatten
        = l ++ '\r' :: '\n' :: (rest.map (· ++ crlf)).flatten := by
      simp [crlf, List.append_assoc]
    rw [hflat]
    have hskip : getAll key ('\r' :: '\n' :: (l ++ '\r' :: '\n' :: (rest.map (· ++ crlf)).flatten))
        = getAll key ('\n' :: (l ++ '\r' :: '\n' :: (rest.map (· ++ crlf)).flatten)) :=
      getAll_skip_seg key ['\r'] _ (by intro c hc; simp at hc; subst hc; decide)
    rw [hskip]
    have hnotpre : ¬ l <+: key := fun hp => hkc (hp.subset hl.2)
    by_cases hpre : key.isPrefixOf l = true
    · obtain ⟨v, rfl⟩ := List.isPrefixOf_iff_prefix.mp hpre
      have hvcolon : ':' ∈ v := by
        rcases List.mem_append.mp hl.2 with h | h
        · exact absurd h hkc
        · exact h
      obtain ⟨a, ha⟩ := findColon_of_mem v hvcolon
      have hterm_a : ∀ c ∈ a, isLineTerm c = false := fun c hc =>
        termFree_mem _ hl.1 c (List.mem_append.mpr (Or.inr (findColon_subset v a ha c hc)))
      have hdoc : findColon (v ++ '\r' :: '\n' :: (rest.map (· ++ crlf)).flatten)
          = some (a ++ '\r' :: '\n' :: (rest.map (· ++ crlf)).flatten) :=
        findColon_append v _ a ha
      rw [List.append_assoc, getAll_nl_match key _ _ hdoc]
      have hcap : takeLineVal (a ++ '\r' :: '\n' :: (rest.map (· ++ crlf)).flatten) = a := by
        unfold takeLineVal
        rw [takeWhile_append_stop _ a '\r' _ (by decide)]
        exact takeWhile_all _ a (fun c hc => by simp [hterm_a c hc])
      rw [hcap, List.drop_left, ih (fun q hq => hall q (by simp [hq]))]
      have hlv : lineVal key (key ++ v) = some (jsTrim a) := by
        have hta : takeLineVal a = a := takeLineVal_all a hterm_a
        simp [lineVal, isPrefixOf_append_self, List.drop_left, ha, hta]
      simp [List.filterMap_cons, hlv]
    · have hpre2 : key.isPrefixOf (l ++ '\r' :: '\n' :: (rest.map (· ++ crlf)).flatten) = false := by
        rw [isPrefixOf_append_of_nonprefixed key l _ hnotpre]
        exact Bool.not_eq_true _ ▸ hpre
      rw [getAll_nl_nomatch key _ hpre2,
        getAll_skip_seg key l _ (fun c hc => (hlc c hc).1),
        ih (fun q hq => hall q (by simp [hq]))]
      have hlv : lineVal key l = none := by simp [lineVal, hpre]
      simp [List.filterMap_cons, hlv]

theorem unfold_no_lf (s : List Char) (h : '\n' ∉ s) : unfoldLines s = s := by
  induction s with
  | nil => rfl
  | cons c rest ih =>
    have hc : c ≠ '\n' := fun hcc => h (by simp [hcc])
    have hrest : '\n' ∉ rest := fun hr => h (by simp [hr])
    by_cases hcr : c = '\r'
    · subst hcr
      cases rest with
      | nil => simp [unfoldLines]
      | cons b t =>
        have hb : b ≠ '\n' := fun hbb => hrest (by simp [hbb])
        rw [show unfoldLines ('\r' :: b :: t) = '\r' :: unfoldLines (b :: t) from by
          cases t <;> simp [unfoldLines, hb]]
        rw [ih hrest]
    · rw [unfold_cons_other c rest hcr hc, ih hrest]

theorem jsGet_none_no_lf (key s : List Char) (h : '\n' ∉ s) : jsGet key s = none := by
  have h2 := jsGetAux_skip_seg key s [] (fun c hc => fun hcc => h (hcc ▸ hc))
  simpa using h2

theorem getAll_nil_no_lf (key s : List Char) (h : '\n' ∉ s) : getAll key s = [] := by
  have h2 := getAll_skip_seg key s [] (fun c hc => fun hcc => h (hcc ▸ hc))
  simpa using h2

/-- Claim C10: `parseIcsSummary` and `parseVCardSummary` are total functions
of the input text; on any input without a newline (in particular, arbitrary
non-iCalendar/non-vCard text and the empty string) every field is absent and
the email/phone lists are empty; and on a CRLF-joined document whose lines
are terminator-free, colon-carrying and not continuation-indented,
`parseVCardSummary` returns as `emails`/`phones` exactly the trimmed values
of the EMAIL/TEL-matching lines, in document order (the first line cannot
match, since the regex requires a preceding newline). -/
theorem parseVCardSummary_total_collects (l0 : List Char) (ls : List (List Char))
    (h0 : termFree l0 = true ∧ goodHead l0 = true)
    (hls : ∀ l ∈ ls, termFree l = true ∧ ':' ∈ l ∧ goodHead l = true) :
    (parseVCardSummary (((l0 :: ls).map (· ++ crlf)).flatten)).emails
        = ls.filterMap (fun l => lineVal ("EMAIL".data) l) ∧
    (parseVCardSummary (((l0 :: ls).map (· ++ crlf)).flatten)).phones
        = ls.filterMap (fun l => lineVal ("TEL".data) l) ∧
    (∀ s : List Char, '\n' ∉ s →
      parseVCardSummary s = { uid := none, fullName := none, emails := [], phones := [] } ∧
      parseIcsSummary s
        = { uid := none, title := none, dtstart := none, dtend := none, location := none }) := by
  have hunf : unfoldLines (((l0 :: ls).map (· ++ crlf)).flatten)
      = ((l0 :: ls).map (· ++ crlf)).flatten := by
    have hw := unfold_wireJoin ((l0 :: ls).map (fun l => (l, false)))
      (by
        intro p hp
        rcases List.mem_map.mp hp with ⟨l, hl, rfl⟩
        rcases List.mem_cons.mp hl with rfl | hl2
        · exact termFree_clean l h0.1
        · exact termFree_clean l (hls l hl2).1)
      (by
        intro p hp
        rcases List.mem_map.mp hp with ⟨l, hl, rfl⟩
        rcases List.mem_cons.mp hl with rfl | hl2
        · exact h0.2
        · exact (hls l hl2).2.2)
    simpa [wireJoin, cleanJoin, List.map_map, Function.comp_def, physLine] using hw
  have hdoc : ((l0 :: ls).map (· ++ crlf)).flatten
      = l0 ++ '\r' :: '\n' :: (ls.map (· ++ crlf)).flatten := by
    simp [crlf, List.append_assoc]
  have hget : ∀ key : List Char, key ≠ [] → ':' ∉ key →
      getAll key (((l0 :: ls).map (· ++ crlf)).flatten)
        = ls.filterMap (fun l => lineVal key l) := by
    intro key h1 h2
    rw [hdoc, getAll_skip_seg key l0 _ (fun c hc => (termFree_clean l0 h0.1 c hc).1),
      getAll_lines key h1 h2 ls (fun l hl => ⟨(hls l hl).1, (hls l hl).2.1⟩)]
  refine ⟨?_, ?_, ?_⟩
  · show getAll ("EMAIL".data) (unfoldLines (((l0 :: ls).map (· ++ crlf)).flatten)) = _
    rw [hunf]
    exact hget ("EMAIL".data) (by decide) (by decide)
  · show getAll ("TEL".data) (unfoldLines (((l0 :: ls).map (· ++ crlf)).flatten)) = _
    rw [hunf]
    exact hget ("TEL".data) (by decide) (by decide)
  · intro s hs
    have hu : unfoldLines s = s := unfold_no_lf s hs
    constructor
    · show ({ uid := jsGet ("UID".data) (unfoldLines s),
              fullName := jsGet ("FN".data) (unfoldLines s),
              emails := getAll ("EMAIL".data) (unfoldLines s),
              phones := getAll ("TEL".data) (unfoldLines s) } : VCardSummary) = _
      rw [hu, jsGet_none_no_lf _ s hs, jsGet_none_no_lf _ s hs,
        getAll_nil_no_lf _ s hs, getAll_nil_no_lf _ s hs]
    · show ({ uid := jsGet ("UID".data) (unfoldLines s),
              title := jsGet ("SUMMARY".data) (unfoldLines s),
              dtstart := jsGet ("DTSTART".data) (unfoldLines s),
              dtend := jsGet ("DTEND".data) (unfoldLines s),
              location := jsGet ("LOCATION".data) (unfoldLines s) } : IcsSummary) = _
      rw [hu, jsGet_none_no_lf _ s hs, jsGet_none_no_lf _ s hs, jsGet_none_no_lf _ s hs,
        jsGet_none_no_lf _ s hs, jsGet_none_no_lf _ s hs]

set_option maxRecDepth 400000 in
/-- Witness for C10: a concrete vCard document with two EMAIL lines and one TEL
line yields exactly those values in order, and a newline-free non-vCard string
parses to the all-absent summary under both parsers. -/
theorem parseVCardSummary_total_collects_witness :
    (parseVCardSummary ((("BEGIN:VCARD".data ::
        ["VERSION:3.0".data, "EMAIL;TYPE=INTERNET:a@x.com".data,
         "TEL;TYPE=CELL:+1555".data, "EMAIL:b@y.org".data,
         "END:VCARD".data]).map (· ++ crlf)).flatten)).emails
      = ["a@x.com".data, "b@y.org".data] ∧
    (parseVCardSummary ((("BEGIN:VCARD".data ::
        ["VERSION:3.0".data, "EMAIL;TYPE=INTERNET:a@x.com".data,
         "TEL;TYPE=CELL:+1555".data, "EMAIL:b@y.org".data,
         "END:VCARD".data]).map (· ++ crlf)).flatten)).phones
      = ["+1555".data] ∧
    parseVCardSummary ("hello world".data)
      = { uid := none, fullName := none, emails := [], phones := [] } ∧
    parseIcsSummary ("hello world".data)
      = { uid := none, title := none, dtstart := none, dtend := none, location := none } := by
  have h := parseVCardSummary_total_collects ("BEGIN:VCARD".data)
    ["VERSION:3.0".data, "EMAIL;TYPE=INTERNET:a@x.com".data,
     "TEL;TYPE=CELL:+1555".data, "EMAIL:b@y.org".data, "END:VCARD".data]
    (by decide) (by decide)
  refine ⟨?_, ?_, ?_, ?_⟩
  · rw [h.1]; decide
  · rw [h.2.1]; decide
  · exact (h.2.2 ("hello world".data) (by decide)).1
  · exact (h.2.2 ("hello world".data) (by decide)).2

/-! ## JMAP / DAV tool-level checks (`src/index.ts`, `src/jmap/client.ts`)

Strings stay `List Char`; JavaScript `String.prototype.toLowerCase()` is modelled
on the ASCII range (the only range exercised by roles, privilege names and the
email addresses of the claims); network effects (the PROPFIND probe, the fetched
calendar or mailbox lists, the identity list) are passed in explicitly. -/

def asciiLowerChar (c : Char) : Char :=
  if 65 ≤ c.toNat ∧ c.toNat ≤ 90 then Char.ofNat (c.toNat + 32) else c

def asciiLower (s : List Char) : List Char := s.map asciiLowerChar

/-- Truthiness of an optional JavaScript string: `undefined` and `""` are falsy. -/
def jsStrTruthy : Option (List Char) → Bool
  | none => false
  | some s => !s.isEmpty

/-- `Array.from(new Set(out))`: first occurrence of each element, in order. -/
def jsSetDedupAux (seen : List (List Char)) : List (List Char) → List (List Char)
  | [] => []
  | x :: xs => if x ∈ seen then jsSetDedupAux seen xs else x :: jsSetDedupAux (x :: seen) xs

/-- `extractDavPrivileges` (index.ts:53-65): an item of the parsed XML privilege
array is its list of element keys; keys named `_attributes` are dropped and the
rest deduplicated. -/
def extractDavPrivileges (items : List (List (List Char))) : List (List Char) :=
  jsSetDedupAux [] (items.flatMap (fun ks => ks.filter (fun k => !(k == ("_attributes".data)))))

structure DavRights where
  privileges : List (List Char)
  canRead : Bool
  canWrite : Bool
deriving DecidableEq

/-- `computeDavRights` (index.ts:67-75). -/
def computeDavRights (privileges : List (List Char)) : DavRights :=
  { privileges := privileges
    canRead := privileges.contains ("read".data) || privileges.contains ("all".data)
    canWrite := privileges.contains ("write".data) || privileges.contains ("writeContent".data)
      || privileges.contains ("writeProperties".data) || privileges.contains ("all".data) }

/-- `getCalendarRights` (index.ts:77-94): the PROPFIND either throws (`.error`) or
yields the privilege items; a throw or an empty extracted set gives `null`. -/
def getCalendarRights (probe : Except Unit (List (List (List Char)))) : Option DavRights :=
  match probe with
  | Except.error _ => none
  | Except.ok items =>
    let privileges := extractDavPrivileges items
    if privileges.isEmpty then none
    else some (computeDavRights privileges)

/-- The `create_calendar_event` gate (index.ts:599-602): `rights && !rights.canWrite`. -/
def createEventWriteBlocked (probe : Except Unit (List (List (List Char)))) : Bool :=
  match getCalendarRights probe with
  | some rights => !rights.canWrite
  | none => false

/-- Claim C3: a calendar write is blocked with the read-only error exactly when the
privilege probe succeeds and extracts a non-empty privilege set containing none of
write, writeContent, writeProperties, all; a probe that throws or yields an empty
set never blocks; a set of just read blocks; a set containing all does not. -/
theorem createEventWriteBlocked_iff :
    (∀ probe : Except Unit (List (List (List Char))),
      createEventWriteBlocked probe = true ↔
        ∃ items, probe = Except.ok items ∧
          extractDavPrivileges items ≠ [] ∧
          ("write".data) ∉ extractDavPrivileges items ∧
          ("writeContent".data) ∉ extractDavPrivileges items ∧
          ("writeProperties".data) ∉ extractDavPrivileges items ∧
          ("all".data) ∉ extractDavPrivileges items) ∧
    createEventWriteBlocked (Except.error ()) = false ∧
    createEventWriteBlocked (Except.ok []) = false ∧
    createEventWriteBlocked (Except.ok [[("read".data)]]) = true ∧
    createEventWriteBlocked (Except.ok [[("read".data), ("all".data)]]) = false := by
  refine ⟨?_, by decide, by decide, by decide, by decide⟩
  intro probe
  cases probe with
  | error e =>
      simp [createEventWriteBlocked, getCalendarRights]
  | ok items =>
      cases hP : (extractDavPrivileges items).isEmpty with
      | true =>
          have hnil : extractDavPrivileges items = [] := List.isEmpty_iff.mp hP
          simp [createEventWriteBlocked, getCalendarRights, hP, hnil]
      | false =>
          have hne : extractDavPrivileges items ≠ [] := by
            intro h
            rw [h] at hP
            simp at hP
          simp [createEventWriteBlocked, getCalendarRights, hP, computeDavRights,
            List.contains, List.elem_iff, not_or, hne]
          tauto

structure Identity where
  email : List Char
  mayDelete : Option Bool
deriving DecidableEq

/-- The identity chosen by `sendEmail` (jmap/client.ts:289-291): with a truthy
`from`, the first identity whose lower-cased email equals the lower-cased `from`;
otherwise the first identity with `mayDelete === false`, else the first identity. -/
def selectIdentity (identities : List Identity) (fromAddr : Option (List Char)) :
    Option Identity :=
  if jsStrTruthy fromAddr then
    identities.find? (fun i => asciiLower i.email == asciiLower (fromAddr.getD []))
  else
    (identities.find? (fun i => i.mayDelete == some false)).orElse (fun _ => identities.head?)

inductive SendEmailError where
  | noIdentities
  | noMatchingIdentity
  | missingBody
deriving DecidableEq

structure SendEmailDraft where
  fromEmail : List Char
  hasTextPart : Bool
  hasHtmlPart : Bool
deriving DecidableEq

/-- The validation prefix of `sendEmail` (jmap/client.ts:286-320) up to building
the draft: empty identity list, then identity selection, then the body check
`!input.textBody && !input.htmlBody`; on success the draft carries a text part
and an html part for exactly the truthy bodies. -/
def sendEmailCheck (identities : List Identity)
    (fromAddr textBody htmlBody : Option (List Char)) :
    Except SendEmailError SendEmailDraft :=
  if identities.isEmpty then Except.error SendEmailError.noIdentities
  else
    match selectIdentity identities fromAddr with
    | none => Except.error SendEmailError.noMatchingIdentity
    | some ident =>
      if !jsStrTruthy textBody && !jsStrTruthy htmlBody then
        Except.error SendEmailError.missingBody
      else
        Except.ok { fromEmail := ident.email
                    hasTextPart := jsStrTruthy textBody
                    hasHtmlPart := jsStrTruthy htmlBody }

/-- Counterexample to claim C4 as stated: supplying BOTH bodies is accepted —
the code rejects only when neither body is truthy — and the resulting draft
carries both a text part and an html part rather than a missing-body error. -/
theorem sendEmail_bothBodies_counterexample :
    sendEmailCheck [{ email := ("user@fastmail.com".data), mayDelete := some false }] none
        (some ("plain text".data)) (some ("<p>hi</p>".data))
      = Except.ok { fromEmail := ("user@fastmail.com".data)
                    hasTextPart := true
                    hasHtmlPart := true } := by
  rfl

/-- Claim C4 (amended): the send path rejects with the missing-body error exactly
when NEITHER body is a non-empty string (identity selection having succeeded on a
non-empty identity list); any accepted draft carries a text part and an html part
for exactly the truthy bodies, so both-present proceeds with both parts. -/
theorem sendEmail_missingBody_iff :
    (∀ identities fromAddr textBody htmlBody,
      sendEmailCheck identities fromAddr textBody htmlBody
          = Except.error SendEmailError.missingBody ↔
        identities ≠ [] ∧ (∃ i, selectIdentity identities fromAddr = some i) ∧
        jsStrTruthy textBody = false ∧ jsStrTruthy htmlBody = false) ∧
    (∀ identities fromAddr textBody htmlBody d,
      sendEmailCheck identities fromAddr textBody htmlBody = Except.ok d →
        d.hasTextPart = jsStrTruthy textBody ∧ d.hasHtmlPart = jsStrTruthy htmlBody) := by
  constructor
  · intro identities fromAddr textBody htmlBody
    cases hid : identities.isEmpty with
    | true =>
        have : identities = [] := List.isEmpty_iff.mp hid
        simp [sendEmailCheck, hid, this]
    | false =>
        have hne : identities ≠ [] := by
          intro h
          rw [h] at hid
          simp at hid
        cases hsel : selectIdentity identities fromAddr with
        | none => simp [sendEmailCheck, hid, hsel]
        | some ident =>
            cases ht : jsStrTruthy textBody <;> cases hh : jsStrTruthy htmlBody <;>
              simp [sendEmailCheck, hid, hsel, ht, hh, hne]
  · intro identities fromAddr textBody htmlBody d h
    cases hid : identities.isEmpty with
    | true => rw [sendEmailCheck, if_pos hid] at h; cases h
    | false =>
        rw [sendEmailCheck, if_neg (by simp [hid])] at h
        cases hsel : selectIdentity identities fromAddr with
        | none => rw [hsel] at h; cases h
        | some ident =>
            rw [hsel] at h
            cases ht : jsStrTruthy textBody <;> cases hh : jsStrTruthy htmlBody <;>
                rw [ht, hh] at h <;> simp at h <;>
              simp [← h, ht, hh]

/-- Witness for C4: one identity and no body at all is rejected with the
missing-body error, and a concrete accepted draft has parts matching its
truthy bodies. -/
theorem sendEmail_missingBody_iff_witness :
    sendEmailCheck [{ email := ("a@x.com".data), mayDelete := none }] none none (some [])
      = Except.error SendEmailError.missingBody ∧
    (SendEmailDraft.mk ("a@x.com".data) true true).hasTextPart
      = jsStrTruthy (some ("hi".data)) := by
  constructor
  · exact (sendEmail_missingBody_iff.1 _ _ _ _).mpr
      ⟨by decide, ⟨{ email := ("a@x.com".data), mayDelete := none }, by decide⟩,
       by decide, by decide⟩
  · exact (sendEmail_missingBody_iff.2 [{ email := ("a@x.com".data), mayDelete := none }]
      none (some ("hi".data)) (some ("ho".data))
      (SendEmailDraft.mk ("a@x.com".data) true true) (by rfl)).1

/-- Counterexample to claim C9 as stated: with exactly one identity available and
a from address matching none, selection yields nothing and the send fails with
the no-matching-identity error — it does NOT fall back to the primary or first
identity, so selection can fail even though an identity exists. -/
theorem selectIdentity_from_mismatch_counterexample :
    selectIdentity [{ email := ("a@x.com".data), mayDelete := some false }]
        (some ("b@y.org".data)) = none ∧
    sendEmailCheck [{ email := ("a@x.com".data), mayDelete := some false }]
        (some ("b@y.org".data)) (some ("hi".data)) none
      = Except.error SendEmailError.noMatchingIdentity := by
  constructor
  · decide
  · rfl

/-- Claim C9 (amended): with a non-empty from address, selection returns the first
identity whose ASCII-lower-cased email equals the lower-cased from, and returns
nothing — failing the send with no-matching-identity even on a non-empty identity
list — when no identity matches; the mayDelete-false / first-identity fallback
chain applies only when no from address is given, and then never fails on a
non-empty list. -/
theorem selectIdentity_rules :
    (∀ (ids : List Identity) (f : List Char) (i : Identity), f ≠ [] → i ∈ ids →
        asciiLower i.email = asciiLower f →
        ∃ j, selectIdentity ids (some f) = some j ∧
          asciiLower j.email = asciiLower f ∧ j ∈ ids) ∧
    (∀ (ids : List Identity) (f : List Char) (tb hb : Option (List Char)),
        f ≠ [] → ids ≠ [] →
        (∀ i ∈ ids, asciiLower i.email ≠ asciiLower f) →
        sendEmailCheck ids (some f) tb hb
          = Except.error SendEmailError.noMatchingIdentity) ∧
    (∀ ids : List Identity, ids ≠ [] →
        ∃ j, selectIdentity ids none = some j ∧ j ∈ ids) ∧
    (∀ (ids : List Identity) (i : Identity), i ∈ ids → i.mayDelete = some false →
        ∃ j, selectIdentity ids none = some j ∧ j.mayDelete = some false) ∧
    (∀ ids : List Identity, (∀ i ∈ ids, i.mayDelete ≠ some false) →
        selectIdentity ids none = ids.head?) := by
  have htruthy : ∀ f : List Char, f ≠ [] → jsStrTruthy (some f) = true := by
    intro f hf
    cases f with
    | nil => exact absurd rfl hf
    | cons a t => rfl
  refine ⟨?_, ?_, ?_, ?_, ?_⟩
  · intro ids f i hf hi heq
    have hsome : (ids.find? (fun x => asciiLower x.email == asciiLower f)).isSome := by
      rw [List.find?_isSome]
      exact ⟨i, hi, by simp [heq]⟩
    obtain ⟨j, hj⟩ := Option.isSome_iff_exists.mp hsome
    refine ⟨j, ?_, ?_, List.mem_of_find?_eq_some hj⟩
    · simp only [selectIdentity, htruthy f hf, if_true, Option.getD_some]
      exact hj
    · have := List.find?_some hj
      simpa using this
  · intro ids f tb hb hf hids hno
    have hnone : ids.find? (fun x => asciiLower x.email == asciiLower f) = none := by
      rw [List.find?_eq_none]
      intro x hx
      simp [hno x hx]
    have hsel : selectIdentity ids (some f) = none := by
      simp only [selectIdentity, htruthy f hf, if_true, Option.getD_some]
      exact hnone
    have hemp : ids.isEmpty = false := by
      cases ids with
      | nil => exact absurd rfl hids
      | cons a t => rfl
    rw [sendEmailCheck, if_neg (by simp [hemp]), hsel]
  · intro ids hids
    cases ids with
    | nil => exact absurd rfl hids
    | cons a t =>
        cases hf : (a :: t).find? (fun x => x.mayDelete == some false) with
        | none =>
            refine ⟨a, ?_, List.mem_cons_self a t⟩
            simp [selectIdentity, jsStrTruthy, hf, Option.orElse]
        | some j =>
            refine ⟨j, ?_, List.mem_of_find?_eq_some hf⟩
            simp [selectIdentity, jsStrTruthy, hf, Option.orElse]
  · intro ids i hi hdel
    have hsome : (ids.find? (fun x => x.mayDelete == some false)).isSome := by
      rw [List.find?_isSome]
      exact ⟨i, hi, by simp [hdel]⟩
    obtain ⟨j, hj⟩ := Option.isSome_iff_exists.mp hsome
    refine ⟨j, ?_, ?_⟩
    · simp [selectIdentity, jsStrTruthy, hj, Option.orElse]
    · have := List.find?_some hj
      simpa using this
  · intro ids hno
    have hnone : ids.find? (fun x => x.mayDelete == some false) = none := by
      rw [List.find?_eq_none]
      intro x hx
      simp [hno x hx]
    simp [selectIdentity, jsStrTruthy, hnone, Option.orElse]

/-- Witness for C9: a case-insensitive from match is selected, and with no from
address the mayDelete-false identity is preferred over an earlier identity. -/
theorem selectIdentity_rules_witness :
    (∃ j, selectIdentity [{ email := ("A@X.com".data), mayDelete := none }]
        (some ("a@x.COM".data)) = some j ∧
      asciiLower j.email = asciiLower ("a@x.COM".data) ∧
      j ∈ [{ email := ("A@X.com".data), mayDelete := none }]) ∧
    (∃ j, selectIdentity [{ email := ("a@x.com".data), mayDelete := some true },
        { email := ("b@y.org".data), mayDelete := some false }] none = some j ∧
      j.mayDelete = some false) := by
  constructor
  · exact selectIdentity_rules.1 _ _ { email := ("A@X.com".data), mayDelete := none }
      (by decide) (by decide) (by decide)
  · exact selectIdentity_rules.2.2.2.1 _
      { email := ("b@y.org".data), mayDelete := some false } (by decide) (by decide)

structure Mailbox where
  id : List Char
  role : Option (List Char)
  name : Option (List Char)
deriving DecidableEq

/-- `PROTECTED_MAILBOX_ROLES` (index.ts:116-124). -/
def protectedMailboxRoles : List (List Char) :=
  ["inbox".data, "spam".data, "trash".data, "sent".data, "drafts".data,
   "archive".data, "junk".data]

/-- `PROTECTED_MAILBOX_NAMES` (index.ts:126-134). -/
def protectedMailboxNames : List (List Char) :=
  ["inbox".data, "spam".data, "junk".data, "trash".data, "sent".data,
   "drafts".data, "archive".data]

/-- `typeof x === 'string' ? x.trim().toLowerCase() : ''` applied to the role. -/
def mailboxRoleNorm (m : Mailbox) : List Char :=
  match m.role with
  | some s => asciiLower (jsTrim s)
  | none => []

/-- The same normalisation applied to the name. -/
def mailboxNameNorm (m : Mailbox) : List Char :=
  match m.name with
  | some s => asciiLower (jsTrim s)
  | none => []

inductive MailboxDeleteError where
  | notFound
  | protectedRole
  | protectedName
deriving DecidableEq

/-- `assertMailboxCanBeDeleted` (index.ts:136-151): find the mailbox by id, refuse
on a non-empty protected role, and only when the normalised role is empty refuse
on a non-empty protected name. -/
def assertMailboxCanBeDeleted (mailboxes : List Mailbox) (mailboxId : List Char) :
    Except MailboxDeleteError Unit :=
  match mailboxes.find? (fun m => m.id == mailboxId) with
  | none => Except.error MailboxDeleteError.notFound
  | some mailbox =>
    let role := mailboxRoleNorm mailbox
    if !role.isEmpty && protectedMailboxRoles.contains role then
      Except.error MailboxDeleteError.protectedRole
    else
      let name := mailboxNameNorm mailbox
      if role.isEmpty && (!name.isEmpty && protectedMailboxNames.contains name) then
        Except.error MailboxDeleteError.protectedName
      else Except.ok ()

/-- Counterexample to claim C5 as stated: a mailbox whose role is the unprotected
string "personal" but whose name case-folds to the protected "trash" IS deletable —
the name check only runs when the normalised role is empty, so a protected name
does not block deletion whenever any non-empty role is present. -/
theorem mailbox_protectedName_counterexample :
    assertMailboxCanBeDeleted
        [{ id := ("mb1".data), role := some ("personal".data), name := some ("Trash".data) }]
        ("mb1".data)
      = Except.ok () := by
  rfl

/-- Claim C5 (amended): once the target mailbox is found, deletion is refused for a
protected role exactly when its normalised (trimmed, lower-cased) role is non-empty
and in the protected set; it is refused for a protected name exactly when the
normalised role is EMPTY and the normalised name is non-empty and protected — so
any non-empty role, protected or not, shields a protected name — and it is allowed
in every remaining case, e.g. no role and the name Projects. -/
theorem assertMailboxCanBeDeleted_rules (mbs : List Mailbox) (mid : List Char)
    (m : Mailbox) (hfind : mbs.find? (fun x => x.id == mid) = some m) :
    (assertMailboxCanBeDeleted mbs mid = Except.error MailboxDeleteError.protectedRole ↔
      mailboxRoleNorm m ≠ [] ∧ mailboxRoleNorm m ∈ protectedMailboxRoles) ∧
    (assertMailboxCanBeDeleted mbs mid = Except.error MailboxDeleteError.protectedName ↔
      mailboxRoleNorm m = [] ∧ mailboxNameNorm m ≠ [] ∧
        mailboxNameNorm m ∈ protectedMailboxNames) ∧
    (assertMailboxCanBeDeleted mbs mid = Except.ok () ↔
      ¬(mailboxRoleNorm m ≠ [] ∧ mailboxRoleNorm m ∈ protectedMailboxRoles) ∧
      ¬(mailboxRoleNorm m = [] ∧ mailboxNameNorm m ≠ [] ∧
          mailboxNameNorm m ∈ protectedMailboxNames)) := by
  rw [assertMailboxCanBeDeleted, hfind]
  cases hrole : (mailboxRoleNorm m).isEmpty with
  | true =>
      have hr : mailboxRoleNorm m = [] := List.isEmpty_iff.mp hrole
      cases hname : (mailboxNameNorm m).isEmpty with
      | true =>
          have hn : mailboxNameNorm m = [] := List.isEmpty_iff.mp hname
          simp [hrole, hr, hn]
      | false =>
          have hn : mailboxNameNorm m ≠ [] := by
            intro h
            rw [h] at hname
            simp at hname
          cases hmem : protectedMailboxNames.contains (mailboxNameNorm m) with
          | true =>
              have := List.elem_iff.mp hmem
              simp [hrole, hr, hn, hmem, this]
          | false =>
              have hnotmem : mailboxNameNorm m ∉ protectedMailboxNames := by
                intro h
                have h2 := List.elem_iff.mpr h
                simp only [List.contains] at hmem
                rw [h2] at hmem
                cases hmem
              simp [hrole, hr, hn, hmem, hnotmem]
  | false =>
      have hr : mailboxRoleNorm m ≠ [] := by
        intro h
        rw [h] at hrole
        simp at hrole
      cases hmem : protectedMailboxRoles.contains (mailboxRoleNorm m) with
      | true =>
          have := List.elem_iff.mp hmem
          simp [hrole, hr, hmem, this]
      | false =>
          have hnotmem : mailboxRoleNorm m ∉ protectedMailboxRoles := by
            intro h
            have h2 := List.elem_iff.mpr h
            simp only [List.contains] at hmem
            rw [h2] at hmem
            cases hmem
          simp [hrole, hr, hmem, hnotmem]

/-- Witness for C5: a mailbox with role Inbox is refused as a protected role, and a
mailbox with no role named Projects is deletable. -/
theorem assertMailboxCanBeDeleted_rules_witness :
    assertMailboxCanBeDeleted
        [{ id := ("mb-inbox".data), role := some ("Inbox".data), name := some ("Mail".data) }]
        ("mb-inbox".data)
      = Except.error MailboxDeleteError.protectedRole ∧
    assertMailboxCanBeDeleted
        [{ id := ("mb-p".data), role := none, name := some ("Projects".data) }]
        ("mb-p".data)
      = Except.ok () := by
  constructor
  · exact (assertMailboxCanBeDeleted_rules _ _
      { id := ("mb-inbox".data), role := some ("Inbox".data), name := some ("Mail".data) }
      (by decide)).1.mpr ⟨by decide, by decide⟩
  · exact (assertMailboxCanBeDeleted_rules _ _
      { id := ("mb-p".data), role := none, name := some ("Projects".data) }
      (by decide)).2.2.mpr ⟨by decide, by decide⟩

inductive CalendarDeleteError where
  | notFound
  | lastCalendar
deriving DecidableEq

/-- The `delete_calendar` tool body (index.ts:452-466), a calendar being its URL:
find the target by URL, refuse when the fetched list has at most one entry, and
otherwise issue the deletion; the success payload is the list of URLs passed to
`deleteObject`, while an error issues none. -/
def deleteCalendar (calendars : List (List Char)) (calendarId : List Char) :
    Except CalendarDeleteError (List (List Char)) :=
  match calendars.find? (fun u => u == calendarId) with
  | none => Except.error CalendarDeleteError.notFound
  | some _ =>
    if calendars.length ≤ 1 then Except.error CalendarDeleteError.lastCalendar
    else Except.ok [calendarId]

/-- Claim C6: with the target present, deletion fails with the last-calendar error —
issuing no deletion call — whenever the fetched list has at most one entry; with at
least two entries it succeeds issuing exactly one deletion call, against the target
URL; and every successful run issued exactly that one call with the target found
among at least two calendars. -/
theorem deleteCalendar_rules (cals : List (List Char)) (cid : List Char) :
    (cid ∈ cals → cals.length ≤ 1 →
      deleteCalendar cals cid = Except.error CalendarDeleteError.lastCalendar) ∧
    (cid ∈ cals → 2 ≤ cals.length → deleteCalendar cals cid = Except.ok [cid]) ∧
    (∀ calls, deleteCalendar cals cid = Except.ok calls →
      calls = [cid] ∧ cid ∈ cals ∧ 2 ≤ cals.length) := by
  have hfound : cid ∈ cals → ∃ u, cals.find? (fun u => u == cid) = some u := by
    intro hmem
    have hsome : (cals.find? (fun u => u == cid)).isSome := by
      rw [List.find?_isSome]
      exact ⟨cid, hmem, by simp⟩
    exact Option.isSome_iff_exists.mp hsome
  refine ⟨?_, ?_, ?_⟩
  · intro hmem hlen
    obtain ⟨u, hu⟩ := hfound hmem
    rw [deleteCalendar, hu, if_pos hlen]
  · intro hmem hlen
    obtain ⟨u, hu⟩ := hfound hmem
    rw [deleteCalendar, hu, if_neg (by omega)]
  · intro calls h
    rw [deleteCalendar] at h
    cases hu : cals.find? (fun u => u == cid) with
    | none => rw [hu] at h; cases h
    | some u =>
        rw [hu] at h
        have hmem : cid ∈ cals := by
          have h1 := List.find?_some hu
          have h2 := List.mem_of_find?_eq_some hu
          rw [show u = cid from by simpa using h1] at h2
          exact h2
        by_cases hlen : cals.length ≤ 1
        · rw [if_pos hlen] at h
          cases h
        · rw [if_neg hlen] at h
          injection h with h
          exact ⟨h.symm, hmem, by omega⟩

/-- Witness for C6: deleting the sole calendar is refused, deleting one of two
issues exactly the one call. -/
theorem deleteCalendar_rules_witness :
    deleteCalendar [("/dav/cal-a/".data)] ("/dav/cal-a/".data)
      = Except.error CalendarDeleteError.lastCalendar ∧
    deleteCalendar [("/dav/cal-a/".data), ("/dav/cal-b/".data)] ("/dav/cal-b/".data)
      = Except.ok [("/dav/cal-b/".data)] := by
  constructor
  · exact (deleteCalendar_rules _ _).1 (by decide) (by decide)
  · exact (deleteCalendar_rules _ _).2.1 (by decide) (by decide)
